import Mathlib

/-!
# makesdk.go: the Fuchsia SDK assembly script

A shallow embedding of `src/makesdk.go`.  Go strings are modelled as sequences
of characters (`String`, with the work done on `List Char`), the host
operating system is Unix (the script shells out to `mkdir`, `cp` and `tar`), so
`path.Join` and `filepath.Join` coincide and the separator is `/`.

Everything the script does to the outside world is recorded as a trace of
`Event`s; the outside world itself (which commands succeed, what the source
tree looks like, what `ids.txt` contains) is a parameter `World`.  A
computation `Res α` is the trace so far and a value, absent once the process
has ended through `log.Fatal` or a panic.

## Main results

* `media_flag_isolation`: switching `--media` off removes exactly the six
  media entries, which all run with it on, from what the loop of `main` runs.
* `toolchain_only_scenario`: with only `--toolchain` set the loop is one
  directory copy of the clang tree.
* `createLayout_invocations`: the two invocations of `create_layout.py`, the
  second with `--overlay`; a failing first one is the last.
* `copyKernelDebugObjs_filter`: as `main` calls it, the debug-object filter
  copies exactly the `.elf` non-directories, keeping relative paths
  (`copyKernelDebugObjs_nonempty_prefix` for any non-empty destination prefix).
* `copyIdsTxt_rewrite`: the index rewrite on well-formed records;
  `copyIdsTxt_absolute_root_base` and `copyIdsTxt_panics_on_line_without_space`
  evaluate it on an absolute project root and on a line without a space.
* `main_dryRun_readOnly_of_outDir`: a dry run with `--out-dir` given is
  read-only; `main_dryRun_creates_temp_dir` and
  `createLayout_dryRun_single_line` evaluate the dry run without `--out-dir`
  and the dry run of the layout initializer.
* `components_order`: the table is custom entries, then directories, then
  files, run in that order; `files_not_before_customs`.
-/

namespace MakeSdk

/-! ## Strings and paths (Go standard library, Unix) -/

/-- Split a character sequence at every occurrence of `sep`; the result is never
empty (`strings.Split` with a one-character separator). -/
def splitOn (sep : Char) : List Char → List (List Char)
  | [] => [[]]
  | c :: cs =>
    if c = sep then [] :: splitOn sep cs
    else
      match splitOn sep cs with
      | [] => [[c]]
      | w :: ws => (c :: w) :: ws

/-- Concatenate segments, writing `sep` between consecutive ones (`strings.Join`). -/
def joinSep (sep : Char) : List (List Char) → List Char
  | [] => []
  | [w] => w
  | w :: w2 :: ws => w ++ sep :: joinSep sep (w2 :: ws)

/-- One step of `path.Clean` on the stack of path elements kept so far (top
first): empty and `.` elements are dropped, `..` removes the element before it
when that is a real name, is dropped at the root, and is kept otherwise. -/
def cleanStep (rooted : Bool) (stack : List (List Char)) (seg : List Char) :
    List (List Char) :=
  if seg = [] ∨ seg = ['.'] then stack
  else if seg = ['.', '.'] then
    match stack with
    | top :: rest => if top = ['.', '.'] then seg :: stack else rest
    | [] => if rooted then [] else [seg]
  else seg :: stack

/-- Write a cleaned stack of elements (top first) back as a path. -/
def renderPath (rooted : Bool) (stack : List (List Char)) : List Char :=
  if rooted then '/' :: joinSep '/' stack.reverse
  else if stack = [] then ['.'] else joinSep '/' stack.reverse

/-- The stack of elements `path.Clean` ends with. -/
def cleanStack (rooted : Bool) (s : List Char) : List (List Char) :=
  (splitOn '/' s).foldl (cleanStep rooted) []

/-- Go `path.Clean` on character sequences: the shortest equivalent path. -/
def cleanChars (s : List Char) : List Char :=
  if s = [] then ['.']
  else
    let rooted := s.head? = some '/'
    renderPath rooted (cleanStack rooted s)

/-- Go `path.Join` / `filepath.Join` on character sequences: leading empty
elements are skipped, the rest is joined with `/` and cleaned; all empty gives
the empty string. -/
def joinChars : List (List Char) → List Char
  | [] => []
  | e :: es => if e = [] then joinChars es else cleanChars (joinSep '/' (e :: es))

/-- Go `path.Clean`. -/
def pathClean (s : String) : String := ⟨cleanChars s.data⟩

/-- Go `path.Join`. -/
def pathJoin (elem : List String) : String := ⟨joinChars (elem.map String.data)⟩

/-- Go `filepath.Join` (Unix). -/
def filepathJoin (elem : List String) : String := pathJoin elem

/-- The loop of Go `filepath.Ext`, run over the reversed path: stop at the first
separator, return the suffix from the first dot met. -/
def extScan : List Char → List Char → List Char
  | [], _ => []
  | c :: cs, acc =>
    if c = '/' then []
    else if c = '.' then '.' :: acc
    else extScan cs (c :: acc)

/-- Go `filepath.Ext`: the suffix beginning at the final dot of the final
element of the path, empty if there is none. -/
def filepathExt (p : String) : String := ⟨extScan p.data.reverse []⟩

/-- Go `filepath.Dir` (Unix): everything up to and including the last
separator, cleaned. -/
def filepathDir (p : String) : String :=
  ⟨cleanChars (p.data.reverse.dropWhile (fun c => c ≠ '/')).reverse⟩

/-- Go `strings.Split(s, " ")`. -/
def stringsSplit (s : String) (sep : Char) : List String :=
  (splitOn sep s.data).map String.mk

/-- Go `len(s)`. -/
def strLen (s : String) : Nat := s.data.length

/-- Go `s[n:]`; `none` is the runtime panic "slice bounds out of range" when
`n` exceeds `len(s)`. -/
def sliceFrom (s : String) (n : Nat) : Option String :=
  if n ≤ strLen s then some ⟨s.data.drop n⟩ else none

/-- The characters of the path element at the front (up to the next separator). -/
def frontWord (s : List Char) : List Char := s.takeWhile (fun c => c ≠ '/')

/-- What follows the front element and the separator after it, if any. -/
def afterWord (s : List Char) : List Char := (s.dropWhile (fun c => c ≠ '/')).drop 1

/-- The element-by-element comparison loop of Go `filepath.Rel`.  Returns
`(base[b0:bi], base[b0:], targ[t0:])` as they stand when the loop is left.
Every round consumes at least one character of the base, so a count of rounds
above its length is never used up (`relLoop_fuel`). -/
def relLoop : Nat → List Char → List Char → List Char × List Char × List Char
  | 0, b, t => ([], b, t)
  | fuel + 1, b, t =>
    if b = [] ∨ t = [] then ([], b, t)
    else if frontWord t ≠ frontWord b then (frontWord b, b, t)
    else relLoop fuel (afterWord b) (afterWord t)

/-- Go `filepath.Rel` (Unix) on character sequences; `none` is the error
"can't make targpath relative to basepath". -/
def relChars (basepath targpath : List Char) : Option (List Char) :=
  let base := cleanChars basepath
  let targ := cleanChars targpath
  if targ = base then some ['.']
  else
    let base := if base = ['.'] then [] else base
    let baseSlashed := base.head? = some '/'
    let targSlashed := targ.head? = some '/'
    if baseSlashed ≠ targSlashed then none
    else
      match relLoop (base.length + 1) base targ with
      | (w, b, t) =>
        if w = ['.', '.'] then none
        else if b ≠ [] then
          some (['.', '.'] ++ (List.replicate (b.count '/') ['/', '.', '.']).flatten
            ++ (if t ≠ [] then '/' :: t else []))
        else some t

/-- Go `filepath.Rel`. -/
def filepathRel (basepath targpath : String) : Option String :=
  (relChars basepath.data targpath.data).map String.mk

/-- How `fmt.Println` shows a `[]string`. -/
def fmtSlice (xs : List String) : String := "[" ++ " ".intercalate xs ++ "]"

/-! ## The outside world and the trace of what the script does to it -/

/-- What `filepath.Walk` finds in a directory: its entries in the order
`Walk` visits them, each a non-directory or a directory with its own entries. -/
inductive Listing where
  | nil : Listing
  | file (name : String) (rest : Listing) : Listing
  | dir (name : String) (children : Listing) (rest : Listing) : Listing
  deriving DecidableEq

/-- What `filepath.Walk` finds at its root. -/
inductive FsNode where
  | file : FsNode
  | dir (entries : Listing) : FsNode
  deriving DecidableEq

/-- Everything the script reads from its environment.  The source tree is
only read, so one fixed view of it serves the whole run. -/
structure World where
  /-- Go `runtime.GOOS` -/
  goos : String
  /-- Go `runtime.GOARCH` -/
  goarch : String
  /-- Go `os.Getwd()`; the script drops its error, leaving the empty string -/
  cwd : String
  /-- whether `os.Stat` finds the path (`os.IsNotExist` is false) -/
  pathExists : String → Bool
  /-- whether an external command run with these arguments exits zero -/
  execOk : String → List String → Bool
  /-- the directory `ioutil.TempDir("", "fuchsia-sdk")` creates, `none` on error -/
  tempDir : Option String
  /-- what `filepath.Walk` sees at a root, `none` if `Lstat` of the root fails -/
  tree : String → Option FsNode
  /-- the lines `bufio.Scanner` yields for a file (all of its lines, as long as
  none outgrows the scanner's 64 KiB buffer), `none` if `os.Open` fails -/
  readLines : String → Option (List String)
  /-- whether `os.Create` of the path succeeds -/
  canCreate : String → Bool

/-- One observable action of the script. -/
inductive Event where
  /-- Go `fmt.Println` of these operands -/
  | println (operands : List String)
  /-- Go `log.Println` of these operands -/
  | logPrintln (operands : List String)
  /-- Go `flag.Usage()` -/
  | usage
  /-- Go `os.Stat` -/
  | stat (path : String)
  /-- Go `os.Getwd` -/
  | getwd
  /-- Go `filepath.Walk` started at this root -/
  | walk (root : String)
  /-- Go `os.Open` for reading -/
  | openRead (path : String)
  /-- Go `ioutil.TempDir` created this directory -/
  | mkdirTemp (path : String)
  /-- Go `os.RemoveAll` -/
  | removeAll (path : String)
  /-- Go `os.Create` -/
  | create (path : String)
  /-- Go `fmt.Fprintln` of one line into the file -/
  | writeLine (path : String) (line : String)
  /-- an external process started with `exec.Command` -/
  | exec (cmd : String) (args : List String)
  /-- Go `log.Fatal`: the message, then `os.Exit(1)` -/
  | fatal (msg : String)
  /-- a Go runtime `panic` -/
  | panic (msg : String)
  deriving DecidableEq

/-- Whether the event changes the filesystem. -/
def Event.mutatesFs : Event → Bool
  | .mkdirTemp _ => true
  | .removeAll _ => true
  | .create _ => true
  | .writeLine _ _ => true
  | _ => false

/-- Whether the event starts an external process. -/
def Event.isExec : Event → Bool
  | .exec _ _ => true
  | _ => false

/-- The trace without its `fmt.Println` lines. -/
def effects (t : List Event) : List Event := t.filter (fun e => !(e matches .println _))

/-- The external commands of a trace, in order. -/
def execsOf : List Event → List (String × List String)
  | [] => []
  | .exec c a :: t => (c, a) :: execsOf t
  | _ :: t => execsOf t

/-- A computation of the script: the events so far and its value, `none` once
the process has ended (`log.Fatal` or a panic). -/
structure Res (α : Type) where
  trace : List Event
  val : Option α
  deriving DecidableEq

/-- Run `m`, then `f` on its value unless the process has ended. -/
def Res.bind {α β : Type} (m : Res α) (f : α → Res β) : Res β :=
  match m.val with
  | none => ⟨m.trace, none⟩
  | some a => ⟨m.trace ++ (f a).trace, (f a).val⟩

instance : Monad Res where
  pure a := ⟨[], some a⟩
  bind := Res.bind

/-- Record one event. -/
def emit (e : Event) : Res Unit := ⟨[e], some ()⟩

/-- Go `log.Fatal`: print and exit. -/
def logFatal {α : Type} (msg : String) : Res α := ⟨[.fatal msg], none⟩

/-- A runtime panic. -/
def goPanic {α : Type} (msg : String) : Res α := ⟨[.panic msg], none⟩

/-! ## Flags -/

/-- The command-line flags after `flag.Parse()`. -/
structure Flags where
  archive : Bool := true
  output : String := "fuchsia-sdk.tgz"
  outDir : String := ""
  toolchain : Bool := false
  toolchainLibs : Bool := true
  sysroot : Bool := true
  kernelImg : Bool := true
  kernelDebugObjs : Bool := true
  bootdata : Bool := true
  qemu : Bool := true
  tools : Bool := true
  media : Bool := true
  verbose : Bool := false
  dryRun : Bool := false
  deriving DecidableEq

/-- The `*bool` a table entry holds: which flag variable it points to. -/
inductive FlagRef where
  | toolchain | toolchainLibs | sysroot | kernelImg | kernelDebugObjs
  | bootdata | qemu | tools | media
  deriving DecidableEq

/-- Dereference a flag pointer. -/
def Flags.get (fl : Flags) : FlagRef → Bool
  | .toolchain => fl.toolchain
  | .toolchainLibs => fl.toolchainLibs
  | .sysroot => fl.sysroot
  | .kernelImg => fl.kernelImg
  | .kernelDebugObjs => fl.kernelDebugObjs
  | .bootdata => fl.bootdata
  | .qemu => fl.qemu
  | .tools => fl.tools
  | .media => fl.media

/-! ## The component table (`init`) -/

/-- The kind of a table entry. -/
inductive compType where
  | dirType | fileType | customType
  deriving DecidableEq

/-- The two custom copy procedures a table entry can hold in its field `f`. -/
inductive CustomProc where
  | copyKernelDebugObjs | copyIdsTxt
  deriving DecidableEq

/-- One entry of the table. -/
structure component where
  /-- Flag controlling whether this component should be included -/
  flag : FlagRef
  /-- Source path prefix relative to the fuchsia root -/
  srcPrefix : String
  /-- Destination path prefix relative to the SDK root -/
  dstPrefix : String
  t : compType
  /-- When t is custom, function to run to copy; `none` is Go `nil` -/
  f : Option CustomProc
  deriving DecidableEq

structure dir where
  flag : FlagRef
  src : String
  dst : String
  deriving DecidableEq

structure file where
  flag : FlagRef
  src : String
  dst : String
  deriving DecidableEq

structure clientHeader where
  flag : FlagRef
  /-- Path to the source of the header, relative to root of the Fuchsia tree -/
  src : String
  /-- Path within the target sysroot -/
  dst : String
  deriving DecidableEq

structure clientLib where
  flag : FlagRef
  name : String
  deriving DecidableEq

def x64BuildDir : String := "out/release-x64"
def armBuildDir : String := "out/release-arm64"

/-- The value `init` gives `hostCpu` from `runtime.GOARCH`. -/
def hostCpuOf (goarch : String) : String := if goarch = "amd64" then "x64" else goarch

/-- The value `init` gives `hostOs` from `runtime.GOOS`. -/
def hostOsOf (goos : String) : String := if goos = "darwin" then "mac" else goos

def zxBuildDir : String := "out/build-zircon"
def x64ZxBuildDir : String := pathJoin [zxBuildDir, "build-x64"]
def armZxBuildDir : String := pathJoin [zxBuildDir, "build-arm64"]
def x64BuildBootfsDir : String := "out/release-x64-bootfs/"
def armBuildBootfsDir : String := "out/release-arm64-bootfs/"

/-- The slice `dirs` of `init`. -/
def dirs (hostOs hostCpu : String) : List dir :=
  [ ⟨.sysroot, pathJoin [x64BuildDir, "sdks/zircon_sysroot/sysroot/"], "sysroot/x86_64-fuchsia/"⟩,
    ⟨.sysroot, pathJoin [armBuildDir, "sdks/zircon_sysroot/sysroot/"], "sysroot/aarch64-fuchsia"⟩,
    ⟨.qemu, "buildtools/" ++ hostOs ++ "-" ++ hostCpu ++ "/qemu/", "qemu"⟩,
    ⟨.tools, "out/build-zircon/tools", "tools"⟩,
    ⟨.tools, pathJoin [x64BuildDir, "host_x64/far"], "tools/far"⟩,
    ⟨.tools, pathJoin [x64BuildDir, "host_x64/pm"], "tools/pm"⟩,
    ⟨.toolchain, "buildtools/" ++ hostOs ++ "-" ++ hostCpu ++ "/clang", "clang"⟩,
    ⟨.toolchainLibs,
      "buildtools/" ++ hostOs ++ "-" ++ hostCpu ++ "/clang/lib/clang/7.0.0/lib/fuchsia",
      "toolchain_libs/clang/7.0.0/lib/fuchsia"⟩ ]

/-- The slice `clientHeaders` of `init`. -/
def clientHeaders : List clientHeader :=
  [ ⟨.media, "garnet/public/lib/media/c/audio.h", "media/audio.h"⟩,
    ⟨.sysroot, "garnet/public/lib/netstack/c/netconfig.h", "netstack/netconfig.h"⟩ ]

/-- The slice `clientLibs` of `init`. -/
def clientLibs : List clientLib :=
  [ ⟨.media, "libmedia_client.so"⟩ ]

/-- The slice literal `files` of `init`, before the client headers and libraries
are appended. -/
def files0 : List file :=
  [ ⟨.kernelImg, "out/build-zircon/build-arm64/qemu-zircon.bin", "target/aarch64/zircon.bin"⟩,
    ⟨.kernelImg, pathJoin [armBuildDir, "bootdata-blob-qemu.bin"], "target/aarch64/bootdata-blob.bin"⟩,
    ⟨.kernelImg, pathJoin [armBuildDir, "images/fvm.blk"], "target/aarch64/fvm.blk"⟩,
    ⟨.kernelImg, "out/build-zircon/build-x64/zircon.bin", "target/x86_64/zircon.bin"⟩,
    ⟨.kernelImg, pathJoin [x64BuildDir, "bootdata-blob-pc.bin"], "target/x86_64/bootdata-blob.bin"⟩,
    ⟨.kernelImg, pathJoin [x64BuildDir, "images/local-pc.esp.blk"], "target/x86_64/local.esp.blk"⟩,
    ⟨.kernelImg, pathJoin [x64BuildDir, "images/zircon-pc.vboot"], "target/x86_64/zircon.vboot"⟩,
    ⟨.kernelImg, pathJoin [x64BuildDir, "images/fvm.blk"], "target/x86_64/fvm.blk"⟩,
    ⟨.kernelImg, pathJoin [x64BuildDir, "images/fvm.sparse.blk"], "target/x86_64/fvm.sparse.blk"⟩,
    ⟨.bootdata, pathJoin [x64BuildBootfsDir, "user.bootfs"], "target/x86_64/bootdata.bin"⟩,
    ⟨.bootdata, pathJoin [armBuildBootfsDir, "user.bootfs"], "target/aarch64/bootdata.bin"⟩ ]

/-- The slice literal `components` of `init`: the four custom entries. -/
def components0 : List component :=
  [ ⟨.kernelDebugObjs, x64ZxBuildDir, "sysroot/x86_64-fuchsia/debug", .customType,
      some .copyKernelDebugObjs⟩,
    ⟨.kernelDebugObjs, x64BuildDir, "sysroot/x86_64-fuchsia/debug", .customType,
      some .copyIdsTxt⟩,
    ⟨.kernelDebugObjs, armZxBuildDir, "sysroot/aarch64-fuchsia/debug", .customType,
      some .copyKernelDebugObjs⟩,
    ⟨.kernelDebugObjs, armBuildDir, "sysroot/aarch64-fuchsia/debug", .customType,
      some .copyIdsTxt⟩ ]

/-- The slice `files` of `init` after the two appending loops over
`clientHeaders` and `clientLibs`. -/
def files : List file :=
  let files1 := clientHeaders.foldl (fun fs c => fs ++
    [ ⟨c.flag, c.src, pathJoin ["sysroot/x86_64-fuchsia/include", c.dst]⟩,
      ⟨c.flag, c.src, pathJoin ["sysroot/aarch64-fuchsia/include", c.dst]⟩ ]) files0
  clientLibs.foldl (fun fs c => fs ++
    [ ⟨c.flag, pathJoin [x64BuildDir, "x64-shared", c.name],
        pathJoin ["sysroot/x86_64-fuchsia/lib", c.name]⟩,
      ⟨c.flag, pathJoin [x64BuildDir, "x64-shared/lib.unstripped", c.name],
        pathJoin ["sysroot/x86_64-fuchsia/debug", c.name]⟩,
      ⟨c.flag, pathJoin [armBuildDir, "arm64-shared", c.name],
        pathJoin ["sysroot/aarch64-fuchsia/lib", c.name]⟩,
      ⟨c.flag, pathJoin [armBuildDir, "arm64-shared/lib.unstripped", c.name],
        pathJoin ["sysroot/aarch64-fuchsia/debug", c.name]⟩ ]) files1

/-- The table `components` as `init` leaves it: the custom entries of the
literal, then one entry per element of `dirs`, then one per element of `files`. -/
def components (hostOs hostCpu : String) : List component :=
  let cs := (dirs hostOs hostCpu).foldl
    (fun cs d => cs ++ [⟨d.flag, d.src, d.dst, .dirType, none⟩]) components0
  files.foldl (fun cs f => cs ++ [⟨f.flag, f.src, f.dst, .fileType, none⟩]) cs

/-! ## The operations -/

/-- Go `exec.Command(cmd, args...).Output()` followed by the check of its
error: the process is started, and its failure is fatal with this message. -/
def runOrDie (w : World) (cmd : String) (args : List String) (msg : String) : Res Unit := do
  emit (.exec cmd args)
  if w.execOk cmd args then pure () else logFatal msg

/-- One round of the loop of `createLayout`; the value says whether the loop
goes on (`false` is the `return` of the dry run). -/
def createLayoutIter (w : World) (fl : Flags) (manifest fuchsiaRoot outDir : String)
    (idx : Nat) (buildDir : String) : Res Bool := do
  let manifestPath := filepathJoin [fuchsiaRoot, buildDir, "sdk-manifests", manifest]
  let cmd := filepathJoin [fuchsiaRoot, "scripts", "sdk", "create_layout.py"]
  let args := ["--manifest", manifestPath, "--output", outDir]
  let args := if idx > 0 then args ++ ["--overlay"] else args
  if fl.verbose || fl.dryRun then emit (.println ["createLayout", cmd, fmtSlice args])
  if fl.dryRun then return false
  runOrDie w cmd args "create_layout.py failed with output"
  return true

/-- The loop of `createLayout` over the build directories from index `idx` on. -/
def createLayoutLoop (w : World) (fl : Flags) (manifest fuchsiaRoot outDir : String) :
    Nat → List String → Res Unit
  | _, [] => pure ()
  | idx, buildDir :: rest => do
    let goOn ← createLayoutIter w fl manifest fuchsiaRoot outDir idx buildDir
    if goOn then createLayoutLoop w fl manifest fuchsiaRoot outDir (idx + 1) rest else pure ()

def createLayout (w : World) (fl : Flags) (manifest fuchsiaRoot outDir : String) : Res Unit :=
  createLayoutLoop w fl manifest fuchsiaRoot outDir 0 [x64BuildDir, armBuildDir]

def mkdir (w : World) (fl : Flags) (d : String) : Res Unit := do
  if fl.verbose || fl.dryRun then emit (.println ["Making directory", d])
  if fl.dryRun then return ()
  runOrDie w "mkdir" ["-p", d] "could not create directory"

def cp (w : World) (fl : Flags) (args : List String) : Res Unit := do
  if fl.verbose || fl.dryRun then emit (.println ["Copying", fmtSlice args])
  if fl.dryRun then return ()
  runOrDie w "cp" args "cp failed with output"

def copyFile (w : World) (fl : Flags) (src dst : String) : Res Unit := do
  mkdir w fl (filepathDir dst)
  cp w fl [src, dst]

def copyDir (w : World) (fl : Flags) (src dst : String) : Res Unit := do
  mkdir w fl (filepathDir dst)
  cp w fl ["-r", src, "-T", dst]

def tar (w : World) (fl : Flags) (src dst : String) : Res Unit := do
  if fl.verbose || fl.dryRun then emit (.println ["Archiving", src, "to", dst])
  if fl.dryRun then return ()
  runOrDie w "tar" ["cvzf", dst, "-C", src, "."] "tar failed with output"

/-- Go `filepath.Walk` below a directory `path`: every entry is visited in
order with its joined path, a directory before its own entries.  The callback
of the script always returns `nil`, so the walk is never cut short by it. -/
def walkListing (fn : String → Bool → Res Unit) (path : String) : Listing → Res Unit
  | .nil => pure ()
  | .file name rest => do
    fn (filepathJoin [path, name]) false
    walkListing fn path rest
  | .dir name children rest => do
    fn (filepathJoin [path, name]) true
    walkListing fn (filepathJoin [path, name]) children
    walkListing fn path rest

/-- The callback `copyKernelDebugObjs` hands to `filepath.Walk`, given
`info.IsDir()`. -/
def debugObjVisit (w : World) (fl : Flags) (src dstPrefix : String)
    (path : String) (isDir : Bool) : Res Unit :=
  if !isDir && filepathExt path = ".elf" then
    match sliceFrom path (strLen src) with
    | none => goPanic "slice bounds out of range"
    | some rel => do
      let dst := filepathJoin [dstPrefix, rel]
      mkdir w fl (filepathDir dst)
      cp w fl [path, dst]
  else pure ()

/-- The kernel debug information lives in many .elf files in the out
directory.  When `Lstat` of the root fails `Walk` calls back with a nil
`info`, and `info.IsDir()` panics. -/
def copyKernelDebugObjs (w : World) (fl : Flags) (src dstPrefix : String) : Res Unit := do
  emit (.walk src)
  match w.tree src with
  | none => goPanic "nil pointer dereference"
  | some .file => debugObjVisit w fl src dstPrefix src false
  | some (.dir entries) => do
    debugObjVisit w fl src dstPrefix src true
    walkListing (debugObjVisit w fl src dstPrefix) src entries

/-- The body of the scanner loop of `copyIdsTxt` for one line. -/
def idsLine (dstIds absBase : String) (line : String) : Res Unit :=
  match stringsSplit line ' ' with
  | id :: absPath :: _ =>
    match filepathRel absBase absPath with
    | none => emit (.logPrintln ["could not create relative path from absolute path", absPath,
        "and base", absBase, "skipping entry"])
    | some relPath => emit (.writeLine dstIds (id ++ " " ++ relPath))
  | _ => goPanic "index out of range"

/-- The scanner loop of `copyIdsTxt`. -/
def idsLoop (dstIds absBase : String) : List String → Res Unit
  | [] => pure ()
  | line :: rest => do
    idsLine dstIds absBase line
    idsLoop dstIds absBase rest

/-- The ids.txt file has absolute paths but relative paths within the SDK are
more useful to users. -/
def copyIdsTxt (w : World) (fl : Flags) (src dstPrefix : String) : Res Unit := do
  let srcIds := filepathJoin [src, "ids.txt"]
  emit (.openRead srcIds)
  match w.readLines srcIds with
  | none => logFatal "could not open ids.txt"
  | some lines => do
    if fl.dryRun then return ()
    let dstIds := filepathJoin [dstPrefix, "ids.txt"]
    emit (.create dstIds)
    if !w.canCreate dstIds then logFatal "could not create ids.txt"
    emit .getwd
    let absBase := filepathJoin [w.cwd, src]
    idsLoop dstIds absBase lines

/-- The body of the loop of `main` for one table entry whose flag is set. -/
def runComponent (w : World) (fl : Flags) (fuchsiaRoot outDir : String) (c : component) :
    Res Unit :=
  let src := filepathJoin [fuchsiaRoot, c.srcPrefix]
  let dst := filepathJoin [outDir, c.dstPrefix]
  match c.t with
  | .dirType => copyDir w fl src dst
  | .fileType => copyFile w fl src dst
  | .customType =>
    match c.f with
    | some .copyKernelDebugObjs => copyKernelDebugObjs w fl src dst
    | some .copyIdsTxt => copyIdsTxt w fl src dst
    | none => goPanic "nil pointer dereference"

/-- The loop of `main` over the table. -/
def runComponents (w : World) (fl : Flags) (fuchsiaRoot outDir : String) :
    List component → Res Unit
  | [] => pure ()
  | c :: rest => do
    if fl.get c.flag then runComponent w fl fuchsiaRoot outDir c
    runComponents w fl fuchsiaRoot outDir rest

/-- The entries for which the loop of `main` runs its body, in the order it
meets them. -/
def executed (fl : Flags) : List component → List component
  | [] => []
  | c :: rest => if fl.get c.flag then c :: executed fl rest else executed fl rest

/-- Whether a trace ends with a runtime panic. -/
def endsInPanic (t : List Event) : Bool :=
  match t.getLast? with
  | some (.panic _) => true
  | _ => false

/-- Go `defer`: the deferred call runs when the body returns and while a
panic of the body unwinds, not when the body leaves the process through
`log.Fatal` (`os.Exit`). -/
def withDefer (deferred : Res Unit) (body : Res Unit) : Res Unit :=
  match body.val with
  | some _ => body >>= fun _ => deferred
  | none =>
    if endsInPanic body.trace then ⟨body.trace ++ deferred.trace, none⟩ else body

/-- The function `main`, from after `flag.Parse()`; `fuchsiaRoot` is
`flag.Arg(0)`.  The `os.RemoveAll` of the temporary directory is deferred
from the point where the directory has been created. -/
def main (w : World) (fl : Flags) (fuchsiaRoot : String) : Res Unit := do
  emit (.stat fuchsiaRoot)
  if !w.pathExists fuchsiaRoot then
    emit .usage
    logFatal "Fuchsia root not found"
  let (outDir, isTemp) ← (
    if fl.outDir = "" then
      match w.tempDir with
      | none => logFatal "Could not create temporary directory"
      | some d => do
        emit (.mkdirTemp d)
        pure (d, true)
    else do
      emit (.stat fuchsiaRoot)
      if !w.pathExists fuchsiaRoot then mkdir w fl (filepathDir fl.outDir)
      pure (fl.outDir, false) : Res (String × Bool))
  withDefer (if isTemp then emit (.removeAll outDir) else pure ()) (do
    createLayout w fl "garnet" fuchsiaRoot outDir
    runComponents w fl fuchsiaRoot outDir (components (hostOsOf w.goos) (hostCpuOf w.goarch))
    if fl.archive then tar w fl outDir fl.output)

/-! ## The shape of cleaned paths -/

/-- A path element `path.Clean` keeps: not empty, not `.`, without a separator. -/
def SegOk (seg : List Char) : Prop := seg ≠ [] ∧ seg ≠ ['.'] ∧ '/' ∉ seg

/-- A name a directory entry can have: a kept element other than `..`. -/
def NameOk (n : List Char) : Prop := n ≠ [] ∧ n ≠ ['.'] ∧ n ≠ ['.', '.'] ∧ '/' ∉ n

/-- The shape of every stack `path.Clean` builds (top first): kept elements
only, and a `..` has nothing but `..` below it, and none at all in a rooted
path. -/
def StackOk (r : Bool) : List (List Char) → Prop
  | [] => True
  | top :: rest =>
    SegOk top ∧ (top = ['.', '.'] → r = false ∧ (rest = [] ∨ rest.head? = some ['.', '.']))
      ∧ StackOk r rest

/-! ## What the debug-object filter is specified to do -/

/-- Whether every name in the listing is one a directory entry can have. -/
def Listing.namesOk : Listing → Bool
  | .nil => true
  | .file name rest =>
    decide (name.data ≠ [] ∧ name.data ≠ ['.'] ∧ name.data ≠ ['.', '.'] ∧ '/' ∉ name.data)
      && rest.namesOk
  | .dir name children rest =>
    decide (name.data ≠ [] ∧ name.data ≠ ['.'] ∧ name.data ≠ ['.', '.'] ∧ '/' ∉ name.data)
      && children.namesOk && rest.namesOk

/-- The entries below a directory, in the order `Walk` visits them: the path
of each relative to the directory (`pre` is the relative path of the directory
being listed, with its trailing separator), and whether it is a directory. -/
def Listing.relPaths (pre : String) : Listing → List (String × Bool)
  | .nil => []
  | .file name rest => (pre ++ name, false) :: relPaths pre rest
  | .dir name children rest =>
    (pre ++ name, true) :: (relPaths (pre ++ name ++ "/") children ++ relPaths pre rest)

/-- What the debug-object filter is specified to do for the walked entries
`rels`: for each non-directory `src/rel` with extension `.elf`, create the
parent of `Join(dstPrefix, rel)`, then copy `src/rel` there. -/
def elfCopies (src dstPrefix : String) : List (String × Bool) → List Event
  | [] => []
  | (rel, isDir) :: rest =>
    if !isDir && filepathExt (src ++ "/" ++ rel) = ".elf" then
      .exec "mkdir" ["-p", filepathDir (filepathJoin [dstPrefix, rel])]
        :: .exec "cp" [src ++ "/" ++ rel, filepathJoin [dstPrefix, rel]]
        :: elfCopies src dstPrefix rest
    else elfCopies src dstPrefix rest

/-- What the debug-object filter is specified to do in either mode, as calls:
for each walked entry `src/rel` that is a non-directory with extension `.elf`,
in order, copy the file `src/rel` to `Join(dstPrefix, rel)` after creating the
parent of the destination (that is `copyFile`), and nothing for the others. -/
def elfCopyCalls (w : World) (fl : Flags) (src dstPrefix : String) :
    List (String × Bool) → Res Unit
  | [] => pure ()
  | (rel, isDir) :: rest =>
    (if !isDir && filepathExt (src ++ "/" ++ rel) = ".elf" then
        copyFile w fl (src ++ "/" ++ rel) (filepathJoin [dstPrefix, rel])
      else pure ()) >>= fun _ => elfCopyCalls w fl src dstPrefix rest

/-- The debug-object filter on the tree `entries` below `src` is the walk
followed by the specified calls, whatever the mode and whether or not the
commands succeed. -/
def DebugObjFilterCalls (w : World) (fl : Flags) (src dstPrefix : String) (entries : Listing) :
    Prop :=
  copyKernelDebugObjs w fl src dstPrefix
    = (emit (.walk src) >>= fun _ => elfCopyCalls w fl src dstPrefix (entries.relPaths ""))

/-- The debug-object filter on the tree `entries` below `src`, seen from
outside: besides starting the walk, its only effects are the specified `mkdir`
and `cp` commands, in walk order, and it returns. -/
def DebugObjFilterSpec (w : World) (fl : Flags) (src dstPrefix : String) (entries : Listing) :
    Prop :=
  effects (copyKernelDebugObjs w fl src dstPrefix).trace
      = .walk src :: elfCopies src dstPrefix (entries.relPaths "")
    ∧ (copyKernelDebugObjs w fl src dstPrefix).val = some ()

instance (w : World) (fl : Flags) (src dstPrefix : String) (entries : Listing) :
    Decidable (DebugObjFilterSpec w fl src dstPrefix entries) := by
  unfold DebugObjFilterSpec; infer_instance

instance (w : World) (fl : Flags) (src dstPrefix : String) (entries : Listing) :
    Decidable (DebugObjFilterCalls w fl src dstPrefix entries) := by
  unfold DebugObjFilterCalls; infer_instance

/-- A world in which every command succeeds and every walked root holds the given entries. -/
def treeWorld (entries : Listing) : World :=
  { goos := "linux", goarch := "amd64", cwd := "/w",
    pathExists := fun _ => true, execOk := fun _ _ => true, tempDir := some "/tmp/fuchsia-sdk1",
    tree := fun _ => some (.dir entries), readLines := fun _ => none, canCreate := fun _ => true }

/-- A small source tree: `a.elf`, `notes.txt`, and a directory `sub.elf` holding `b.elf`. -/
def sampleTree : Listing :=
  .file "a.elf" (.file "notes.txt" (.dir "sub.elf" (.file "b.elf" .nil) .nil))

/-! ## The table and the loop over it, as specified -/

/-- Run the body of the loop of `main` for each of the given entries, in order. -/
def runAll (w : World) (fl : Flags) (fuchsiaRoot outDir : String) : List component → Res Unit
  | [] => pure ()
  | c :: rest => do
    runComponent w fl fuchsiaRoot outDir c
    runAll w fl fuchsiaRoot outDir rest

/-- Every entry of kind `k1` stands in the table before every entry of kind `k2`. -/
def allBefore (k1 k2 : compType) (cs : List component) : Prop :=
  ∀ i j : Fin cs.length, (cs.get i).t = k1 → (cs.get j).t = k2 → i < j

/-- The six entries the claim names as gated by `--media`. -/
def mediaEntries : List component :=
  [ ⟨.media, "garnet/public/lib/media/c/audio.h",
      "sysroot/x86_64-fuchsia/include/media/audio.h", .fileType, none⟩,
    ⟨.media, "garnet/public/lib/media/c/audio.h",
      "sysroot/aarch64-fuchsia/include/media/audio.h", .fileType, none⟩,
    ⟨.media, "out/release-x64/x64-shared/libmedia_client.so",
      "sysroot/x86_64-fuchsia/lib/libmedia_client.so", .fileType, none⟩,
    ⟨.media, "out/release-x64/x64-shared/lib.unstripped/libmedia_client.so",
      "sysroot/x86_64-fuchsia/debug/libmedia_client.so", .fileType, none⟩,
    ⟨.media, "out/release-arm64/arm64-shared/libmedia_client.so",
      "sysroot/aarch64-fuchsia/lib/libmedia_client.so", .fileType, none⟩,
    ⟨.media, "out/release-arm64/arm64-shared/lib.unstripped/libmedia_client.so",
      "sysroot/aarch64-fuchsia/debug/libmedia_client.so", .fileType, none⟩ ]

/-- The four entries the claim names as gated by `--sysroot`. -/
def sysrootEntries : List component :=
  [ ⟨.sysroot, "out/release-x64/sdks/zircon_sysroot/sysroot", "sysroot/x86_64-fuchsia/",
      .dirType, none⟩,
    ⟨.sysroot, "out/release-arm64/sdks/zircon_sysroot/sysroot", "sysroot/aarch64-fuchsia",
      .dirType, none⟩,
    ⟨.sysroot, "garnet/public/lib/netstack/c/netconfig.h",
      "sysroot/x86_64-fuchsia/include/netstack/netconfig.h", .fileType, none⟩,
    ⟨.sysroot, "garnet/public/lib/netstack/c/netconfig.h",
      "sysroot/aarch64-fuchsia/include/netstack/netconfig.h", .fileType, none⟩ ]

/-- The toolchain directory entry of the table. -/
def toolchainEntry (hostOs hostCpu : String) : component :=
  ⟨.toolchain, "buildtools/" ++ hostOs ++ "-" ++ hostCpu ++ "/clang", "clang", .dirType, none⟩

/-- The flag setting of the toolchain-only scenario. -/
def Flags.toolchainOnly (fl : Flags) : Prop :=
  fl.sysroot = false ∧ fl.kernelImg = false ∧ fl.bootdata = false ∧ fl.kernelDebugObjs = false ∧
    fl.qemu = false ∧ fl.tools = false ∧ fl.toolchainLibs = false ∧ fl.media = false ∧
    fl.toolchain = true

/-- The function `main` with `loop` in the place of its loop over the table:
`main` is `mainWith` of `runComponents` on the table (`main_eq_mainWith`). -/
def mainWith (w : World) (fl : Flags) (fuchsiaRoot : String) (loop : String → Res Unit) :
    Res Unit := do
  emit (.stat fuchsiaRoot)
  if !w.pathExists fuchsiaRoot then
    emit .usage
    logFatal "Fuchsia root not found"
  let (outDir, isTemp) ← (
    if fl.outDir = "" then
      match w.tempDir with
      | none => logFatal "Could not create temporary directory"
      | some d => do
        emit (.mkdirTemp d)
        pure (d, true)
    else do
      emit (.stat fuchsiaRoot)
      if !w.pathExists fuchsiaRoot then mkdir w fl (filepathDir fl.outDir)
      pure (fl.outDir, false) : Res (String × Bool))
  withDefer (if isTemp then emit (.removeAll outDir) else pure ()) (do
    createLayout w fl "garnet" fuchsiaRoot outDir
    loop outDir
    if fl.archive then tar w fl outDir fl.output)

/-- The flags with only `--media` set among the component flags. -/
def mediaOnlyFlags : Flags :=
  { toolchain := false, toolchainLibs := false, sysroot := false, kernelImg := false,
    kernelDebugObjs := false, bootdata := false, qemu := false, tools := false, media := true }

/-! ## Sample worlds and flag settings -/

/-- A world in which every command succeeds, nothing can be walked or read. -/
def okWorld : World :=
  { goos := "linux", goarch := "amd64", cwd := "/w",
    pathExists := fun _ => true, execOk := fun _ _ => true, tempDir := some "/tmp/fuchsia-sdk1",
    tree := fun _ => none, readLines := fun _ => none, canCreate := fun _ => true }

/-- The flags of `--sysroot=false --kernel-img=false --bootdata=false --kernel-dbg=false
--qemu=false --tools=false --toolchain-lib=false --media=false --toolchain=true`. -/
def toolchainOnlyFlags : Flags :=
  { toolchain := true, toolchainLibs := false, sysroot := false, kernelImg := false,
    kernelDebugObjs := false, bootdata := false, qemu := false, tools := false, media := false }

/-- A world in which every external command fails. -/
def failWorld : World :=
  { goos := "linux", goarch := "amd64", cwd := "/w",
    pathExists := fun _ => true, execOk := fun _ _ => false, tempDir := some "/tmp/fuchsia-sdk1",
    tree := fun _ => none, readLines := fun _ => none, canCreate := fun _ => true }

/-! ## The layout initializer and the index rewrite, as specified -/

/-- The layout tool `createLayout` runs: `<root>/scripts/sdk/create_layout.py`. -/
def layoutCmd (fuchsiaRoot : String) : String :=
  filepathJoin [fuchsiaRoot, "scripts", "sdk", "create_layout.py"]

/-- The arguments `--manifest <root>/<buildDir>/sdk-manifests/<manifest> --output <outDir>`. -/
def layoutArgs (fuchsiaRoot buildDir manifest outDir : String) : List String :=
  ["--manifest", filepathJoin [fuchsiaRoot, buildDir, "sdk-manifests", manifest],
    "--output", outDir]

/-- The lines a trace writes into files, in order, each with the file written. -/
def writesOf : List Event → List (String × String)
  | [] => []
  | .writeLine path line :: t => (path, line) :: writesOf t
  | _ :: t => writesOf t

/-- The `log.Println` warnings of a trace, in order. -/
def warningsOf : List Event → List (List String)
  | [] => []
  | .logPrintln ops :: t => ops :: warningsOf t
  | _ :: t => warningsOf t

/-- A record of `ids.txt` as one line: identifier, one space, path. -/
def idsRecordLine (r : String × String) : String := r.1 ++ " " ++ r.2

/-- What the index rewrite is specified to do with one record: write
`identifier relPath` when the path can be made relative to `base`, log the
warning otherwise. -/
def idsRecordEvent (dstIds base : String) (r : String × String) : Event :=
  match filepathRel base r.2 with
  | some rel => .writeLine dstIds (r.1 ++ " " ++ rel)
  | none => .logPrintln ["could not create relative path from absolute path", r.2,
      "and base", base, "skipping entry"]

/-- A world with working directory `/w` in which every command succeeds, every
walked root is an empty directory and every file opened holds the given lines. -/
def idsWorld (lines : List String) : World :=
  { goos := "linux", goarch := "amd64", cwd := "/w",
    pathExists := fun _ => true, execOk := fun _ _ => true, tempDir := some "/tmp/fuchsia-sdk1",
    tree := fun _ => some (.dir .nil), readLines := fun _ => some lines,
    canCreate := fun _ => true }

/-- The `ids.txt` entry of the table for x64. -/
def idsEntryX64 : component :=
  ⟨.kernelDebugObjs, x64BuildDir, "sysroot/x86_64-fuchsia/debug", .customType, some .copyIdsTxt⟩

/-! ## Read-only runs -/

/-- Whether the event leaves the filesystem unchanged and starts no process:
output, `os.Stat`, the walk, opening a file for reading, and the two ways the
process ends. -/
def Event.readOnly : Event → Bool
  | .println _ => true
  | .logPrintln _ => true
  | .usage => true
  | .stat _ => true
  | .walk _ => true
  | .openRead _ => true
  | .fatal _ => true
  | .panic _ => true
  | _ => false

/-- Every event of the computation is read-only. -/
def Res.ReadOnly {α : Type} (m : Res α) : Prop := ∀ e ∈ m.trace, e.readOnly = true

/-! ## Theorems -/

theorem afterWord_length_lt (b : List Char) (hb : b ≠ []) :
    (afterWord b).length < b.length := by
  unfold afterWord
  have h1 : (b.dropWhile (fun c => decide (c ≠ '/'))).length ≤ b.length :=
    (List.dropWhile_sublist _).length_le
  have h2 : 0 < b.length := List.length_pos.mpr hb
  rw [List.length_drop]
  omega

/-- The count of rounds given to `relLoop` is never used up. -/
theorem relLoop_fuel (n : Nat) :
    ∀ (m : Nat) (b t : List Char), b.length < n → b.length < m → relLoop n b t = relLoop m b t := by
  induction n with
  | zero => intro m b t hn _; exact absurd hn (Nat.not_lt_zero _)
  | succ k ih =>
    intro m b t hn hm
    cases m with
    | zero => exact absurd hm (Nat.not_lt_zero _)
    | succ j =>
      by_cases h1 : b = [] ∨ t = []
      · simp only [relLoop, h1, if_true]
      · by_cases h2 : frontWord t ≠ frontWord b
        · simp only [relLoop, h1, if_false]
          rw [if_pos h2, if_pos h2]
        · have hb : b ≠ [] := fun e => h1 (Or.inl e)
          have hlt := afterWord_length_lt b hb
          have hrec := ih j (afterWord b) (afterWord t) (by omega) (by omega)
          simp only [relLoop, h1, if_false]
          rw [if_neg h2, if_neg h2]
          exact hrec

theorem splitOn_ne_nil (sep : Char) (s : List Char) : splitOn sep s ≠ [] := by
  induction s with
  | nil => simp [splitOn]
  | cons c cs ih =>
    unfold splitOn
    split
    · simp
    · split <;> simp

theorem splitOn_of_not_mem (sep : Char) (s : List Char) (h : sep ∉ s) :
    splitOn sep s = [s] := by
  induction s with
  | nil => simp [splitOn]
  | cons c cs ih =>
    simp only [List.mem_cons, not_or] at h
    have hc : ¬ c = sep := fun e => h.1 e.symm
    simp [splitOn, hc, ih h.2]

theorem splitOn_append_sep (sep : Char) (a b : List Char) :
    splitOn sep (a ++ sep :: b) = splitOn sep a ++ splitOn sep b := by
  induction a with
  | nil => simp [splitOn]
  | cons c cs ih =>
    by_cases hc : c = sep
    · simp [splitOn, hc, ih]
    · have hne := splitOn_ne_nil sep cs
      cases hs : splitOn sep cs with
      | nil => exact absurd hs hne
      | cons w ws => simp [splitOn, hc, ih, hs]

theorem not_mem_of_mem_splitOn (sep : Char) (s : List Char) :
    ∀ w ∈ splitOn sep s, sep ∉ w := by
  induction s with
  | nil => simp [splitOn]
  | cons c cs ih =>
    by_cases hc : c = sep
    · intro w hw
      simp only [splitOn, hc, if_true, List.mem_cons] at hw
      rcases hw with rfl | hw
      · simp
      · exact ih w hw
    · cases hs : splitOn sep cs with
      | nil => exact absurd hs (splitOn_ne_nil sep cs)
      | cons w0 ws =>
        rw [hs] at ih
        intro w hw
        simp only [splitOn, hc, if_false, hs, List.mem_cons] at hw
        rcases hw with rfl | hw
        · have := ih w0 (by simp)
          simp only [List.mem_cons, not_or]
          exact ⟨fun e => hc e.symm, this⟩
        · exact ih w (by simp [hw])

theorem splitOn_joinSep (sep : Char) (l : List (List Char)) (hl : l ≠ [])
    (h : ∀ w ∈ l, sep ∉ w) : splitOn sep (joinSep sep l) = l := by
  induction l with
  | nil => exact absurd rfl hl
  | cons w ws ih =>
    cases ws with
    | nil => simpa [joinSep] using splitOn_of_not_mem sep w (h w (by simp))
    | cons w2 ws2 =>
      have h1 := splitOn_of_not_mem sep w (h w (by simp))
      have h2 := ih (by simp) (fun x hx => h x (by simp [List.mem_cons] at hx ⊢; tauto))
      simp [joinSep, splitOn_append_sep, h1, h2]

theorem joinSep_append_singleton (sep : Char) (l : List (List Char)) (n : List Char)
    (hl : l ≠ []) : joinSep sep (l ++ [n]) = joinSep sep l ++ sep :: n := by
  induction l with
  | nil => exact absurd rfl hl
  | cons w ws ih =>
    cases ws with
    | nil => simp [joinSep]
    | cons w2 ws2 =>
      have := ih (by simp)
      simp only [List.cons_append] at this ⊢
      simp [joinSep, this]

theorem joinSep_head (sep : Char) (l : List (List Char)) (w : List Char) (hw : w ≠ []) :
    (joinSep sep (w :: l)).head? = w.head? := by
  cases l with
  | nil => simp [joinSep]
  | cons w2 ws =>
    cases w with
    | nil => exact absurd rfl hw
    | cons c cs => simp [joinSep]

theorem NameOk.segOk {n : List Char} (h : NameOk n) : SegOk n := ⟨h.1, h.2.1, h.2.2.2⟩

theorem cleanStep_push (r : Bool) (st : List (List Char)) (n : List Char) (h : NameOk n) :
    cleanStep r st n = n :: st := by
  simp [cleanStep, h.1, h.2.1, h.2.2.1]

theorem cleanStep_nil (r : Bool) (st : List (List Char)) : cleanStep r st [] = st := by
  simp [cleanStep]

theorem cleanStep_stackOk (r : Bool) (st : List (List Char)) (seg : List Char)
    (hst : StackOk r st) (hseg : '/' ∉ seg) : StackOk r (cleanStep r st seg) := by
  unfold cleanStep
  split
  · exact hst
  · rename_i h1
    simp only [not_or] at h1
    split
    · rename_i h2
      subst h2
      cases st with
      | nil =>
        cases r with
        | true => simp [StackOk]
        | false => simp [StackOk, SegOk]
      | cons top rest =>
        simp only
        split
        · rename_i h3
          subst h3
          refine ⟨⟨by simp, by simp, by simp⟩, fun _ => ⟨(hst.2.1 rfl).1, Or.inr rfl⟩, hst⟩
        · exact hst.2.2
    · rename_i h2
      exact ⟨⟨h1.1, h1.2, hseg⟩, fun e => absurd e h2, hst⟩

theorem foldl_cleanStep_stackOk (r : Bool) (segs : List (List Char)) :
    ∀ st : List (List Char), StackOk r st → (∀ seg ∈ segs, '/' ∉ seg) →
      StackOk r (segs.foldl (cleanStep r) st) := by
  induction segs with
  | nil => intro st h _; exact h
  | cons s ss ih =>
    intro st h hs
    simp only [List.foldl_cons]
    exact ih _ (cleanStep_stackOk r st s h (hs s (by simp))) (fun x hx => hs x (by simp [hx]))

theorem cleanStack_stackOk (r : Bool) (s : List Char) : StackOk r (cleanStack r s) :=
  foldl_cleanStep_stackOk r _ [] trivial (not_mem_of_mem_splitOn '/' s)

theorem foldl_cleanStep_names (r : Bool) (names : List (List Char)) :
    ∀ st : List (List Char), (∀ n ∈ names, NameOk n) →
      names.foldl (cleanStep r) st = names.reverse ++ st := by
  induction names with
  | nil => intro st _; rfl
  | cons n ns ih =>
    intro st h
    simp only [List.foldl_cons, cleanStep_push r st n (h n (by simp))]
    rw [ih _ (fun x hx => h x (by simp [hx]))]
    simp

theorem stackOk_push (r : Bool) (st : List (List Char)) (n : List Char) (h : NameOk n)
    (hst : StackOk r st) : StackOk r (n :: st) :=
  ⟨h.segOk, fun e => absurd e h.2.2.1, hst⟩

theorem stackOk_names (r : Bool) (names : List (List Char)) :
    ∀ st : List (List Char), (∀ n ∈ names, NameOk n) → StackOk r st →
      StackOk r (names.reverse ++ st) := by
  intro st h hst
  rw [← foldl_cleanStep_names r names st h]
  exact foldl_cleanStep_stackOk r names st hst (fun seg hs => (h seg hs).2.2.2)

theorem foldl_reverse_stackOk (r : Bool) (st : List (List Char)) (h : StackOk r st) :
    st.reverse.foldl (cleanStep r) [] = st := by
  induction st with
  | nil => rfl
  | cons top rest ih =>
    simp only [List.reverse_cons, List.foldl_append, List.foldl_cons, List.foldl_nil]
    rw [ih h.2.2]
    obtain ⟨hseg, hdots, _⟩ := h
    by_cases htop : top = ['.', '.']
    · subst htop
      obtain ⟨hr, hrest⟩ := hdots rfl
      subst hr
      cases rest with
      | nil => simp [cleanStep]
      | cons t2 rest2 =>
        rcases hrest with h0 | h0
        · exact absurd h0 (by simp)
        · simp only [List.head?_cons, Option.some.injEq] at h0
          subst h0
          simp [cleanStep]
    · exact cleanStep_push r rest top ⟨hseg.1, hseg.2.1, htop, hseg.2.2⟩

theorem stackOk_mem (r : Bool) (st : List (List Char)) (h : StackOk r st) :
    ∀ w ∈ st, SegOk w := by
  induction st with
  | nil => simp
  | cons top rest ih =>
    intro w hw
    simp only [List.mem_cons] at hw
    rcases hw with rfl | hw
    · exact h.1
    · exact ih h.2.2 w hw

theorem splitOn_renderPath (r : Bool) (st : List (List Char)) (h : StackOk r st)
    (hst : st ≠ []) :
    splitOn '/' (renderPath r st) = (if r then [[]] else []) ++ st.reverse := by
  have hrev : st.reverse ≠ [] := by simpa using hst
  have hno : ∀ w ∈ st.reverse, '/' ∉ w := fun w hw =>
    (stackOk_mem r st h w (by simpa using hw)).2.2
  have hsp := splitOn_joinSep '/' st.reverse hrev hno
  cases r with
  | true =>
    have := splitOn_append_sep '/' [] (joinSep '/' st.reverse)
    simp only [List.nil_append] at this
    simp [renderPath, this, hsp, splitOn]
  | false => simp [renderPath, hst, hsp]

theorem foldl_cleanStep_rendered (r : Bool) (st : List (List Char)) (h : StackOk r st)
    (hst : st ≠ []) :
    (splitOn '/' (renderPath r st)).foldl (cleanStep r) [] = st := by
  rw [splitOn_renderPath r st h hst]
  cases r with
  | true =>
    simp only [if_true, List.singleton_append, List.foldl_cons, cleanStep_nil]
    exact foldl_reverse_stackOk true st h
  | false =>
    simp only [Bool.false_eq_true, if_false, List.nil_append]
    exact foldl_reverse_stackOk false st h

theorem renderPath_head (r : Bool) (st : List (List Char)) (h : StackOk r st)
    (hst : st ≠ []) (x : List Char) :
    decide ((renderPath r st ++ x).head? = some '/') = r := by
  cases r with
  | true => simp [renderPath]
  | false =>
    have hrev : st.reverse ≠ [] := by simpa using hst
    cases hs : st.reverse with
    | nil => exact absurd hs hrev
    | cons w l =>
      have hw : SegOk w := stackOk_mem false st h w (by
        have : w ∈ st.reverse := by rw [hs]; simp
        simpa using this)
      cases w with
      | nil => exact absurd rfl hw.1
      | cons c cs =>
        have hc : c ≠ '/' := fun e => hw.2.2 (by simp [e])
        have hj := joinSep_head '/' l (c :: cs) (by simp)
        have hne : joinSep '/' ((c :: cs) :: l) ≠ [] := by
          intro e; rw [e] at hj; simp at hj
        cases hjs : joinSep '/' ((c :: cs) :: l) with
        | nil => exact absurd hjs hne
        | cons d ds =>
          rw [hjs] at hj
          simp only [List.head?_cons, Option.some.injEq] at hj
          subst hj
          simp [renderPath, hst, hs, hjs, hc]

theorem renderPath_push (r : Bool) (st : List (List Char)) (n : List Char) (hst : st ≠ []) :
    renderPath r (n :: st) = renderPath r st ++ '/' :: n := by
  have hrev : st.reverse ≠ [] := by simpa using hst
  cases r with
  | true => simp [renderPath, joinSep_append_singleton '/' st.reverse n hrev]
  | false => simp [renderPath, hst, joinSep_append_singleton '/' st.reverse n hrev]

/-- Joining a name below a clean path that is neither `/` nor `.` appends it. -/
theorem cleanChars_child (r : Bool) (st : List (List Char)) (n : List Char)
    (h : StackOk r st) (hst : st ≠ []) (hn : NameOk n) :
    cleanChars (renderPath r st ++ '/' :: n) = renderPath r (n :: st) := by
  have hx : renderPath r st ++ '/' :: n ≠ [] := by simp
  have hhead := renderPath_head r st h hst ('/' :: n)
  unfold cleanChars
  simp only [hx, if_false, hhead]
  congr 1
  unfold cleanStack
  rw [splitOn_append_sep, List.foldl_append, foldl_cleanStep_rendered r st h hst,
    splitOn_of_not_mem '/' n hn.2.2.2]
  simp [cleanStep_push r st n hn]

theorem renderPath_ne_nil (r : Bool) (st : List (List Char)) (h : StackOk r st) :
    renderPath r st ≠ [] := by
  by_cases hst : st = []
  · subst hst
    cases r <;> simp [renderPath, joinSep]
  · intro e
    have := renderPath_head r st h hst []
    rw [List.append_nil, e] at this
    cases r with
    | true => simp at this
    | false =>
      have h2 := splitOn_renderPath false st h hst
      rw [e] at h2
      simp [splitOn] at h2
      have hm := stackOk_mem false st h [] (by
        have : ([] : List Char) ∈ st.reverse := by rw [← h2]; simp
        simpa using this)
      exact hm.1 rfl

/-- The path `filepath.Join` gives for a directory and the name of one of its entries. -/
theorem joinChars_child (r : Bool) (st : List (List Char)) (n : List Char)
    (h : StackOk r st) (hst : st ≠ []) (hn : NameOk n) :
    joinChars [renderPath r st, n] = renderPath r st ++ '/' :: n := by
  have hne := renderPath_ne_nil r st h
  simp only [joinChars, hne, if_false, joinSep]
  rw [cleanChars_child r st n h hst hn, renderPath_push r st n hst]

/-- A separator at the front of the second element makes no difference to `filepath.Join` when the
first element is not empty. -/
theorem joinChars_leading_sep (d x : List Char) (hd : d ≠ []) :
    joinChars [d, '/' :: x] = joinChars [d, x] := by
  have h1 : d ++ '/' :: '/' :: x ≠ [] := by simp
  have h2 : d ++ '/' :: x ≠ [] := by simp
  have hh : (d ++ '/' :: '/' :: x).head? = (d ++ '/' :: x).head? := by
    cases d with
    | nil => exact absurd rfl hd
    | cons c cs => simp
  simp only [joinChars, hd, if_false, joinSep, cleanChars, h1, h2, hh]
  congr 1
  unfold cleanStack
  rw [splitOn_append_sep, splitOn_append_sep]
  have : splitOn '/' ('/' :: x) = [] :: splitOn '/' x := by simp [splitOn]
  rw [this]
  simp [List.foldl_append, cleanStep_nil]

/-- The source path `main` hands to a custom procedure is a clean path ending in the names of the
table entry. -/
theorem joinChars_root (root : List Char) (names : List (List Char)) (hn : ∀ n ∈ names, NameOk n)
    (hne : names ≠ []) :
    ∃ r st, StackOk r st ∧ st ≠ [] ∧ joinChars [root, joinSep '/' names] = renderPath r st := by
  have hsplit : splitOn '/' (joinSep '/' names) = names :=
    splitOn_joinSep '/' names hne (fun w hw => (hn w hw).2.2.2)
  by_cases hroot : root = []
  · subst hroot
    obtain ⟨n0, ns, rfl⟩ := List.exists_cons_of_ne_nil hne
    have hn0 : NameOk n0 := hn n0 (by simp)
    have hj : joinSep '/' (n0 :: ns) ≠ [] := by
      intro e
      have := joinSep_head '/' ns n0 hn0.1
      rw [e] at this
      cases n0 with
      | nil => exact hn0.1 rfl
      | cons c cs => simp at this
    have hhead : decide ((joinSep '/' (n0 :: ns)).head? = some '/') = false := by
      rw [joinSep_head '/' ns n0 hn0.1]
      cases n0 with
      | nil => exact absurd rfl hn0.1
      | cons c cs =>
        have hc : c ≠ '/' := fun e => hn0.2.2.2 (by simp [e])
        simp [hc]
    refine ⟨false, (n0 :: ns).reverse, ?_, by simp, ?_⟩
    · simpa using stackOk_names false (n0 :: ns) [] hn trivial
    · simp only [joinChars, if_true, hj, if_false, joinSep, cleanChars, hhead, cleanStack, hsplit]
      rw [foldl_cleanStep_names false (n0 :: ns) [] hn]
      simp
  · refine ⟨decide (root.head? = some '/'),
      names.reverse ++ cleanStack (decide (root.head? = some '/')) root, ?_, ?_, ?_⟩
    · exact stackOk_names _ names _ hn (cleanStack_stackOk _ root)
    · simp [hne]
    · have hx : root ++ '/' :: joinSep '/' names ≠ [] := by simp
      have hh : (root ++ '/' :: joinSep '/' names).head? = root.head? := by
        cases root with
        | nil => exact absurd rfl hroot
        | cons c cs => simp
      simp only [joinChars, hroot, if_false, joinSep, cleanChars, hx, hh]
      congr 1
      unfold cleanStack
      rw [splitOn_append_sep, List.foldl_append, hsplit, foldl_cleanStep_names _ names _ hn]

theorem bind_eq {α β : Type} (m : Res α) (f : α → Res β) : (m >>= f) = Res.bind m f := rfl

theorem pure_eq {α : Type} (a : α) : (pure a : Res α) = ⟨[], some a⟩ := rfl

theorem effects_append (a b : List Event) : effects (a ++ b) = effects a ++ effects b := by
  simp [effects]

theorem mkdir_run (w : World) (fl : Flags) (d : String) (hdry : fl.dryRun = false)
    (hok : w.execOk "mkdir" ["-p", d] = true) :
    effects (mkdir w fl d).trace = [.exec "mkdir" ["-p", d]] ∧ (mkdir w fl d).val = some () := by
  cases hv : fl.verbose <;>
    simp [mkdir, runOrDie, bind_eq, pure_eq, Res.bind, emit, hdry, hok, hv, effects]

theorem cp_run (w : World) (fl : Flags) (args : List String) (hdry : fl.dryRun = false)
    (hok : w.execOk "cp" args = true) :
    effects (cp w fl args).trace = [.exec "cp" args] ∧ (cp w fl args).val = some () := by
  cases hv : fl.verbose <;>
    simp [cp, runOrDie, bind_eq, pure_eq, Res.bind, emit, hdry, hok, hv, effects]

theorem bind_run {α β : Type} (m : Res α) (f : α → Res β) (a : α) (h : m.val = some a) :
    (m >>= f).trace = m.trace ++ (f a).trace ∧ (m >>= f).val = (f a).val := by
  simp [bind_eq, Res.bind, h]

theorem pure_bind_res {α β : Type} (a : α) (f : α → Res β) : ((pure a : Res α) >>= f) = f a := by
  simp [bind_eq, Res.bind, pure_eq]

theorem bind_assoc_res {α β γ : Type} (m : Res α) (f : α → Res β) (g : β → Res γ) :
    ((m >>= f) >>= g) = (m >>= fun a => f a >>= g) := by
  obtain ⟨t, v⟩ := m
  cases v with
  | none => simp [bind_eq, Res.bind]
  | some a =>
    cases hv : (f a).val <;> simp [bind_eq, Res.bind, hv]

theorem elfCopyCalls_append (w : World) (fl : Flags) (src dstPrefix : String)
    (a b : List (String × Bool)) :
    elfCopyCalls w fl src dstPrefix (a ++ b)
      = (elfCopyCalls w fl src dstPrefix a >>= fun _ => elfCopyCalls w fl src dstPrefix b) := by
  induction a with
  | nil => simp only [List.nil_append, elfCopyCalls]; exact (pure_bind_res _ _).symm
  | cons x xs ih =>
    obtain ⟨rel, isDir⟩ := x
    simp only [List.cons_append, elfCopyCalls, List.append_eq, ih, bind_assoc_res]

theorem debugObjVisit_dir (w : World) (fl : Flags) (src dstPrefix path : String) :
    debugObjVisit w fl src dstPrefix path true = pure () := by
  simp [debugObjVisit]

/-- The callback on a non-directory `src/rel`, reached as the walked path
`p = src ++ q ++ "/" ++ name` with `rel = pre ++ name`. -/
theorem debugObjVisit_file (w : World) (fl : Flags) (src dstPrefix : String)
    (hdst : dstPrefix ≠ "") (q : List Char) (pre name p : String)
    (hq : '/' :: pre.data = q ++ ['/'])
    (hp : p.data = src.data ++ (q ++ '/' :: name.data)) :
    debugObjVisit w fl src dstPrefix p false
      = if !false && filepathExt (src ++ "/" ++ (pre ++ name)) = ".elf" then
          copyFile w fl (src ++ "/" ++ (pre ++ name)) (filepathJoin [dstPrefix, pre ++ name])
        else pure () := by
  have hqn : q ++ '/' :: name.data = '/' :: (pre.data ++ name.data) := by
    rw [← List.cons_append, hq]; simp
  have hpath : p = src ++ "/" ++ (pre ++ name) := by
    apply String.ext
    simp only [String.data_append, hp, hqn]
    show src.data ++ '/' :: (pre.data ++ name.data) = src.data ++ ['/'] ++ (pre.data ++ name.data)
    simp
  have hlen : strLen src ≤ strLen p := by
    simp only [strLen, hp, List.length_append]
    omega
  have hslice : sliceFrom p (strLen src) = some ⟨'/' :: (pre ++ name).data⟩ := by
    unfold sliceFrom
    rw [if_pos hlen]
    simp only [strLen, hp, String.data_append, List.drop_left', hqn]
  have hjoin : filepathJoin [dstPrefix, ⟨'/' :: (pre ++ name).data⟩]
      = filepathJoin [dstPrefix, pre ++ name] := by
    have hd : dstPrefix.data ≠ [] := fun e => hdst (String.ext e)
    simp only [filepathJoin, pathJoin, List.map]
    rw [joinChars_leading_sep _ _ hd]
  unfold debugObjVisit copyFile
  rw [hslice]
  simp only [hjoin, ← hpath]

/-- The walk below a directory whose path is the clean path `src ++ q`. -/
theorem walkListing_calls (w : World) (fl : Flags) (src dstPrefix : String)
    (hdst : dstPrefix ≠ "") (l : Listing) :
    ∀ (r : Bool) (st : List (List Char)) (q : List Char) (pre p : String),
      StackOk r st → st ≠ [] → p.data = renderPath r st → p.data = src.data ++ q →
      '/' :: pre.data = q ++ ['/'] → l.namesOk = true →
      walkListing (debugObjVisit w fl src dstPrefix) p l
        = elfCopyCalls w fl src dstPrefix (l.relPaths pre) := by
  induction l with
  | nil => intro r st q pre p _ _ _ _ _ _; rfl
  | file name rest ih =>
    intro r st q pre p hok1 hst hrender hp hq hnames
    simp only [Listing.namesOk, Bool.and_eq_true, decide_eq_true_eq] at hnames
    have hchild : (filepathJoin [p, name]).data = src.data ++ (q ++ '/' :: name.data) := by
      simp only [filepathJoin, pathJoin, List.map]
      rw [hrender, joinChars_child r st name.data hok1 hst hnames.1, ← hrender, hp]
      simp
    simp only [walkListing, Listing.relPaths, elfCopyCalls]
    rw [debugObjVisit_file w fl src dstPrefix hdst q pre name (filepathJoin [p, name]) hq hchild,
      ih r st q pre p hok1 hst hrender hp hq hnames.2]
  | dir name children rest ihc ihr =>
    intro r st q pre p hok1 hst hrender hp hq hnames
    simp only [Listing.namesOk, Bool.and_eq_true, decide_eq_true_eq] at hnames
    obtain ⟨⟨hname, hch⟩, hrest⟩ := hnames
    have hchildR : (filepathJoin [p, name]).data = renderPath r (name.data :: st) := by
      simp only [filepathJoin, pathJoin, List.map]
      rw [hrender, joinChars_child r st name.data hok1 hst hname, renderPath_push r st _ hst]
    have hchild : (filepathJoin [p, name]).data = src.data ++ (q ++ '/' :: name.data) := by
      rw [hchildR, renderPath_push r st _ hst, ← hrender, hp]
      simp
    have hq2 : '/' :: (pre ++ name ++ "/").data = (q ++ '/' :: name.data) ++ ['/'] := by
      simp only [String.data_append]
      show '/' :: (pre.data ++ name.data ++ ['/']) = (q ++ '/' :: name.data) ++ ['/']
      rw [← List.cons_append, ← List.cons_append, hq]; simp
    have h1 := ihc r (name.data :: st) (q ++ '/' :: name.data) (pre ++ name ++ "/")
      (filepathJoin [p, name]) (stackOk_push r st _ hname hok1) (by simp) hchildR
      (by rw [hchild]) hq2 hch
    have h2 := ihr r st q pre p hok1 hst hrender hp hq hrest
    simp only [walkListing, Listing.relPaths, elfCopyCalls, debugObjVisit_dir, Bool.not_true,
      Bool.false_and, if_false, elfCopyCalls_append, h1, h2]
    rfl

theorem copyFile_run (w : World) (fl : Flags) (src dst : String) (hdry : fl.dryRun = false)
    (hok : ∀ c a, w.execOk c a = true) :
    effects (copyFile w fl src dst).trace
        = [.exec "mkdir" ["-p", filepathDir dst], .exec "cp" [src, dst]]
      ∧ (copyFile w fl src dst).val = some () := by
  have hm := mkdir_run w fl (filepathDir dst) hdry (hok _ _)
  have hc := cp_run w fl [src, dst] hdry (hok _ _)
  have hb := bind_run (mkdir w fl (filepathDir dst)) (fun _ => cp w fl [src, dst]) () hm.2
  unfold copyFile
  rw [hb.1, hb.2, effects_append, hm.1, hc.1, hc.2]
  simp

/-- Not in dry run and with every command succeeding, the specified calls have the specified
effects. -/
theorem elfCopyCalls_effects (w : World) (fl : Flags) (src dstPrefix : String)
    (hdry : fl.dryRun = false) (hok : ∀ c a, w.execOk c a = true)
    (rels : List (String × Bool)) :
    effects (elfCopyCalls w fl src dstPrefix rels).trace = elfCopies src dstPrefix rels
      ∧ (elfCopyCalls w fl src dstPrefix rels).val = some () := by
  induction rels with
  | nil => exact ⟨rfl, rfl⟩
  | cons x xs ih =>
    obtain ⟨rel, isDir⟩ := x
    simp only [elfCopyCalls, elfCopies]
    split
    · have hc := copyFile_run w fl (src ++ "/" ++ rel) (filepathJoin [dstPrefix, rel]) hdry hok
      have hb := bind_run (copyFile w fl (src ++ "/" ++ rel) (filepathJoin [dstPrefix, rel]))
        (fun _ => elfCopyCalls w fl src dstPrefix xs) () hc.2
      rw [hb.1, hb.2, effects_append, hc.1, ih.1, ih.2]
      simp
    · rw [pure_bind_res]
      exact ih

theorem zxBuildDir_names (srcPrefix : String)
    (h : srcPrefix = x64ZxBuildDir ∨ srcPrefix = armZxBuildDir) :
    ∃ names : List (List Char), (∀ n ∈ names, NameOk n) ∧ names ≠ [] ∧
      srcPrefix.data = joinSep '/' names := by
  rcases h with rfl | rfl
  · refine ⟨["out".data, "build-zircon".data, "build-x64".data], ?_, by simp, by decide⟩
    intro n hn
    simp only [List.mem_cons, List.mem_singleton, List.not_mem_nil, or_false] at hn
    rcases hn with rfl | rfl | rfl <;> (unfold NameOk; decide)
  · refine ⟨["out".data, "build-zircon".data, "build-arm64".data], ?_, by simp, by decide⟩
    intro n hn
    simp only [List.mem_cons, List.mem_singleton, List.not_mem_nil, or_false] at hn
    rcases hn with rfl | rfl | rfl <;> (unfold NameOk; decide)

/-- The debug-object filter for a source root `Join(root, srcPrefix)` of either
debug-object entry, a directory holding any tree of entries, and any non-empty
destination prefix: the run is the walk followed by the specified calls, and
not in dry run with the commands succeeding its effects besides the walk are
exactly the specified `mkdir -p` and `cp` commands. -/
theorem copyKernelDebugObjs_nonempty_prefix (w : World) (fl : Flags) (root srcPrefix dstPrefix : String)
    (entries : Listing)
    (hsrc : srcPrefix = x64ZxBuildDir ∨ srcPrefix = armZxBuildDir)
    (hdst : dstPrefix ≠ "") (hnames : entries.namesOk = true)
    (htree : w.tree (filepathJoin [root, srcPrefix]) = some (.dir entries)) :
    DebugObjFilterCalls w fl (filepathJoin [root, srcPrefix]) dstPrefix entries
      ∧ (fl.dryRun = false → (∀ c a, w.execOk c a = true) →
          DebugObjFilterSpec w fl (filepathJoin [root, srcPrefix]) dstPrefix entries) := by
  obtain ⟨names, hn, hne, hdata⟩ := zxBuildDir_names srcPrefix hsrc
  obtain ⟨r, st, hst, hstne, hrender⟩ := joinChars_root root.data names hn hne
  have hp : (filepathJoin [root, srcPrefix]).data = renderPath r st := by
    simp only [filepathJoin, pathJoin, List.map]
    rw [hdata, hrender]
  have hwalk := walkListing_calls w fl (filepathJoin [root, srcPrefix]) dstPrefix hdst
    entries r st [] "" (filepathJoin [root, srcPrefix]) hst hstne hp (by simp) (by decide) hnames
  have hcalls : DebugObjFilterCalls w fl (filepathJoin [root, srcPrefix]) dstPrefix entries := by
    unfold DebugObjFilterCalls copyKernelDebugObjs
    simp only [htree, debugObjVisit_dir, hwalk, pure_bind_res]
  refine ⟨hcalls, fun hdry hok => ?_⟩
  have he := elfCopyCalls_effects w fl (filepathJoin [root, srcPrefix]) dstPrefix hdry hok
    (entries.relPaths "")
  have hb := bind_run (emit (.walk (filepathJoin [root, srcPrefix])))
    (fun _ => elfCopyCalls w fl (filepathJoin [root, srcPrefix]) dstPrefix (entries.relPaths ""))
    () rfl
  unfold DebugObjFilterSpec
  rw [hcalls, hb.1, hb.2, effects_append, he.1, he.2]
  exact ⟨rfl, rfl⟩

/-- Outside what `main` passes: with the empty destination prefix `a.elf` is
copied to `Join("", "/a.elf") = "/a.elf"` after `mkdir -p /`, not to
`Join("", "a.elf") = "a.elf"`; this is why the destination prefix has to be
non-empty, as every prefix `main` passes is. -/
theorem copyKernelDebugObjs_empty_prefix :
    effects (copyKernelDebugObjs (treeWorld sampleTree) {} (filepathJoin ["/f", x64ZxBuildDir])
        "").trace
      = [.walk "/f/out/build-zircon/build-x64",
         .exec "mkdir" ["-p", "/"],
         .exec "cp" ["/f/out/build-zircon/build-x64/a.elf", "/a.elf"],
         .exec "mkdir" ["-p", "/sub.elf"],
         .exec "cp" ["/f/out/build-zircon/build-x64/sub.elf/b.elf", "/sub.elf/b.elf"]]
    ∧ ¬ DebugObjFilterCalls (treeWorld sampleTree) {} (filepathJoin ["/f", x64ZxBuildDir]) ""
        sampleTree
    ∧ ¬ DebugObjFilterSpec (treeWorld sampleTree) {} (filepathJoin ["/f", x64ZxBuildDir]) ""
        sampleTree := by
  decide

theorem executed_eq_filter (fl : Flags) (cs : List component) :
    executed fl cs = cs.filter (fun c => fl.get c.flag) := by
  induction cs with
  | nil => rfl
  | cons c rest ih =>
    simp only [executed, List.filter_cons, ih]

theorem bind_pure_unit (m : Res Unit) : (m >>= fun _ => (pure () : Res Unit)) = m := by
  obtain ⟨t, v⟩ := m
  cases v <;> simp [bind_eq, Res.bind, pure_eq]

theorem pure_bind_unit {β : Type} (f : Unit → Res β) : ((pure () : Res Unit) >>= f) = f () := by
  simp [bind_eq, Res.bind, pure_eq]

theorem runComponents_eq_runAll (w : World) (fl : Flags) (root outDir : String)
    (cs : List component) :
    runComponents w fl root outDir cs = runAll w fl root outDir (executed fl cs) := by
  induction cs with
  | nil => rfl
  | cons c rest ih =>
    by_cases h : fl.get c.flag = true
    · simp [runComponents, executed, runAll, h, ih]
    · simp only [runComponents, executed, h, if_false, ih]
      exact pure_bind_unit _

theorem foldl_append_singleton {α β : Type} (g : α → β) (l : List α) :
    ∀ init : List β, l.foldl (fun cs d => cs ++ [g d]) init = init ++ l.map g := by
  induction l with
  | nil => intro init; simp
  | cons a as ih => intro init; simp [ih]

/-- The slice `files` of `init`, evaluated. -/
theorem files_eq : files =
    [ ⟨.kernelImg, "out/build-zircon/build-arm64/qemu-zircon.bin", "target/aarch64/zircon.bin"⟩,
      ⟨.kernelImg, "out/release-arm64/bootdata-blob-qemu.bin", "target/aarch64/bootdata-blob.bin"⟩,
      ⟨.kernelImg, "out/release-arm64/images/fvm.blk", "target/aarch64/fvm.blk"⟩,
      ⟨.kernelImg, "out/build-zircon/build-x64/zircon.bin", "target/x86_64/zircon.bin"⟩,
      ⟨.kernelImg, "out/release-x64/bootdata-blob-pc.bin", "target/x86_64/bootdata-blob.bin"⟩,
      ⟨.kernelImg, "out/release-x64/images/local-pc.esp.blk", "target/x86_64/local.esp.blk"⟩,
      ⟨.kernelImg, "out/release-x64/images/zircon-pc.vboot", "target/x86_64/zircon.vboot"⟩,
      ⟨.kernelImg, "out/release-x64/images/fvm.blk", "target/x86_64/fvm.blk"⟩,
      ⟨.kernelImg, "out/release-x64/images/fvm.sparse.blk", "target/x86_64/fvm.sparse.blk"⟩,
      ⟨.bootdata, "out/release-x64-bootfs/user.bootfs", "target/x86_64/bootdata.bin"⟩,
      ⟨.bootdata, "out/release-arm64-bootfs/user.bootfs", "target/aarch64/bootdata.bin"⟩,
      ⟨.media, "garnet/public/lib/media/c/audio.h", "sysroot/x86_64-fuchsia/include/media/audio.h"⟩,
      ⟨.media, "garnet/public/lib/media/c/audio.h", "sysroot/aarch64-fuchsia/include/media/audio.h"⟩,
      ⟨.sysroot, "garnet/public/lib/netstack/c/netconfig.h",
        "sysroot/x86_64-fuchsia/include/netstack/netconfig.h"⟩,
      ⟨.sysroot, "garnet/public/lib/netstack/c/netconfig.h",
        "sysroot/aarch64-fuchsia/include/netstack/netconfig.h"⟩,
      ⟨.media, "out/release-x64/x64-shared/libmedia_client.so",
        "sysroot/x86_64-fuchsia/lib/libmedia_client.so"⟩,
      ⟨.media, "out/release-x64/x64-shared/lib.unstripped/libmedia_client.so",
        "sysroot/x86_64-fuchsia/debug/libmedia_client.so"⟩,
      ⟨.media, "out/release-arm64/arm64-shared/libmedia_client.so",
        "sysroot/aarch64-fuchsia/lib/libmedia_client.so"⟩,
      ⟨.media, "out/release-arm64/arm64-shared/lib.unstripped/libmedia_client.so",
        "sysroot/aarch64-fuchsia/debug/libmedia_client.so"⟩ ] := by
  decide

/-- The slice `dirs` of `init`, evaluated. -/
theorem dirs_eq (hostOs hostCpu : String) : dirs hostOs hostCpu =
    [ ⟨.sysroot, "out/release-x64/sdks/zircon_sysroot/sysroot", "sysroot/x86_64-fuchsia/"⟩,
      ⟨.sysroot, "out/release-arm64/sdks/zircon_sysroot/sysroot", "sysroot/aarch64-fuchsia"⟩,
      ⟨.qemu, "buildtools/" ++ hostOs ++ "-" ++ hostCpu ++ "/qemu/", "qemu"⟩,
      ⟨.tools, "out/build-zircon/tools", "tools"⟩,
      ⟨.tools, "out/release-x64/host_x64/far", "tools/far"⟩,
      ⟨.tools, "out/release-x64/host_x64/pm", "tools/pm"⟩,
      ⟨.toolchain, "buildtools/" ++ hostOs ++ "-" ++ hostCpu ++ "/clang", "clang"⟩,
      ⟨.toolchainLibs,
        "buildtools/" ++ hostOs ++ "-" ++ hostCpu ++ "/clang/lib/clang/7.0.0/lib/fuchsia",
        "toolchain_libs/clang/7.0.0/lib/fuchsia"⟩ ] := by
  have h1 : pathJoin [x64BuildDir, "sdks/zircon_sysroot/sysroot/"]
      = "out/release-x64/sdks/zircon_sysroot/sysroot" := by decide
  have h2 : pathJoin [armBuildDir, "sdks/zircon_sysroot/sysroot/"]
      = "out/release-arm64/sdks/zircon_sysroot/sysroot" := by decide
  have h3 : pathJoin [x64BuildDir, "host_x64/far"] = "out/release-x64/host_x64/far" := by decide
  have h4 : pathJoin [x64BuildDir, "host_x64/pm"] = "out/release-x64/host_x64/pm" := by decide
  unfold dirs
  rw [h1, h2, h3, h4]

/-- The slice literal `components` of `init`, evaluated. -/
theorem components0_eq : components0 =
    [ ⟨.kernelDebugObjs, "out/build-zircon/build-x64", "sysroot/x86_64-fuchsia/debug", .customType,
        some .copyKernelDebugObjs⟩,
      ⟨.kernelDebugObjs, "out/release-x64", "sysroot/x86_64-fuchsia/debug", .customType,
        some .copyIdsTxt⟩,
      ⟨.kernelDebugObjs, "out/build-zircon/build-arm64", "sysroot/aarch64-fuchsia/debug",
        .customType, some .copyKernelDebugObjs⟩,
      ⟨.kernelDebugObjs, "out/release-arm64", "sysroot/aarch64-fuchsia/debug", .customType,
        some .copyIdsTxt⟩ ] := by
  decide

/-- The table is the custom entries, then the directories, then the files. -/
theorem components_eq (hostOs hostCpu : String) :
    components hostOs hostCpu
      = components0
        ++ (dirs hostOs hostCpu).map (fun d => ⟨d.flag, d.src, d.dst, .dirType, none⟩)
        ++ files.map (fun f => ⟨f.flag, f.src, f.dst, .fileType, none⟩) := by
  unfold components
  simp only [foldl_append_singleton]

theorem components_kinds (hostOs hostCpu : String) :
    (components hostOs hostCpu).map (fun c => c.t)
      = List.replicate 4 .customType ++ List.replicate 8 .dirType
          ++ List.replicate 19 .fileType := by
  rw [components_eq, components0_eq, dirs_eq, files_eq]
  rfl

theorem allBefore_of_kinds (k1 k2 : compType) (cs : List component) (hk : k1 ≠ k2)
    (h : (cs.map (fun c => c.t)).Pairwise (fun a b => ¬ (a = k2 ∧ b = k1))) :
    allBefore k1 k2 cs := by
  rw [List.pairwise_map] at h
  intro i j hi hj
  by_contra hlt
  have hle : j ≤ i := not_lt.mp hlt
  rcases lt_or_eq_of_le hle with hji | hji
  · exact (List.pairwise_iff_get.mp h j i hji) ⟨hj, hi⟩
  · subst hji
    exact hk (hi.symm.trans hj)

theorem components_media (hostOs hostCpu : String) :
    (components hostOs hostCpu).filter (fun c => decide (c.flag = .media)) = mediaEntries := by
  rw [components_eq, components0_eq, dirs_eq, files_eq]
  rfl

theorem components_sysroot (hostOs hostCpu : String) :
    (components hostOs hostCpu).filter (fun c => decide (c.flag = .sysroot)) = sysrootEntries := by
  rw [components_eq, components0_eq, dirs_eq, files_eq]
  rfl

theorem main_eq_mainWith (w : World) (fl : Flags) (root : String) :
    main w fl root = mainWith w fl root (fun outDir =>
      runComponents w fl root outDir (components (hostOsOf w.goos) (hostCpuOf w.goarch))) := rfl

/-- The body of the loop does not look at `--media`. -/
theorem runComponent_media (w : World) (fl : Flags) (b : Bool) (root outDir : String)
    (c : component) :
    runComponent w { fl with media := b } root outDir c = runComponent w fl root outDir c := rfl

theorem runAll_media (w : World) (fl : Flags) (b : Bool) (root outDir : String)
    (cs : List component) :
    runAll w { fl with media := b } root outDir cs = runAll w fl root outDir cs := by
  induction cs with
  | nil => rfl
  | cons c rest ih => simp only [runAll, runComponent_media, ih]

/-- Nothing of `main` outside the loop looks at `--media`. -/
theorem mainWith_media (w : World) (fl : Flags) (b : Bool) (root : String)
    (loop : String → Res Unit) :
    mainWith w { fl with media := b } root loop = mainWith w fl root loop := rfl

theorem executed_media_true (fl : Flags) (cs : List component) :
    (executed { fl with media := true } cs).filter (fun c => decide (c.flag = .media))
      = cs.filter (fun c => decide (c.flag = .media)) := by
  rw [executed_eq_filter, List.filter_filter]
  apply List.filter_congr
  intro c _
  cases hc : c.flag <;> simp [Flags.get]

theorem executed_media_false (fl : Flags) (cs : List component) :
    (executed { fl with media := false } cs).filter (fun c => decide (c.flag = .media)) = [] := by
  rw [executed_eq_filter, List.filter_filter, List.filter_eq_nil_iff]
  intro c _
  cases hc : c.flag <;> simp [Flags.get]

theorem executed_media_removed (fl : Flags) (cs : List component) :
    executed { fl with media := false } cs
      = (executed { fl with media := true } cs).filter (fun c => decide (c.flag ≠ .media)) := by
  rw [executed_eq_filter, executed_eq_filter, List.filter_filter]
  apply List.filter_congr
  intro c _
  cases hc : c.flag <;> simp [Flags.get]

theorem executed_sysroot (fl : Flags) (b : Bool) (cs : List component) :
    (executed { fl with media := b, sysroot := true } cs).filter
        (fun c => decide (c.flag = .sysroot))
      = cs.filter (fun c => decide (c.flag = .sysroot)) := by
  rw [executed_eq_filter, List.filter_filter]
  apply List.filter_congr
  intro c _
  cases hc : c.flag <;> simp [Flags.get]

theorem runComponent_mediaEntry (w : World) (fl : Flags) (root outDir : String) (c : component)
    (hc : c ∈ mediaEntries) :
    runComponent w fl root outDir c
      = copyFile w fl (filepathJoin [root, c.srcPrefix]) (filepathJoin [outDir, c.dstPrefix]) := by
  simp only [mediaEntries, List.mem_cons, List.mem_singleton, List.not_mem_nil, or_false] at hc
  rcases hc with rfl | rfl | rfl | rfl | rfl | rfl <;> rfl

/-- Claim C1 (flag isolation for `--media`): whatever the other flags are, the
entries the loop of `main` runs with `media` false are those it runs with
`media` true minus the entries whose flag is `media`; the entries so removed
are exactly the six file entries for `audio.h` (both include trees) and
`libmedia_client.so` (stripped into `lib`, unstripped into `debug`, both
architectures), all six run with `media` true and none with `media` false;
the loop, and `main` around it, runs the body for exactly those sequences of
entries, in order; the body for each media entry is the copy of its file
(`mkdir -p` of the destination's parent, then `cp`); the entries gated by
`sysroot` are the two sysroot directories and `netconfig.h` in both include
trees, each of them runs with `media` false exactly when it runs with `media`
true, and all four run when `sysroot` is set. -/
theorem media_flag_isolation (w : World) (fl : Flags) (root outDir hostOs hostCpu : String) :
    executed { fl with media := false } (components hostOs hostCpu)
        = (executed { fl with media := true } (components hostOs hostCpu)).filter
            (fun c => decide (c.flag ≠ .media))
      ∧ (executed { fl with media := true } (components hostOs hostCpu)).filter
            (fun c => decide (c.flag = .media)) = mediaEntries
      ∧ (executed { fl with media := false } (components hostOs hostCpu)).filter
            (fun c => decide (c.flag = .media)) = []
      ∧ runComponents w { fl with media := true } root outDir (components hostOs hostCpu)
        = runAll w fl root outDir (executed { fl with media := true } (components hostOs hostCpu))
      ∧ runComponents w { fl with media := false } root outDir (components hostOs hostCpu)
        = runAll w fl root outDir
            ((executed { fl with media := true } (components hostOs hostCpu)).filter
              (fun c => decide (c.flag ≠ .media)))
      ∧ main w { fl with media := true } root
        = mainWith w fl root (fun outDir => runAll w fl root outDir
            (executed { fl with media := true }
              (components (hostOsOf w.goos) (hostCpuOf w.goarch))))
      ∧ main w { fl with media := false } root
        = mainWith w fl root (fun outDir => runAll w fl root outDir
            ((executed { fl with media := true }
              (components (hostOsOf w.goos) (hostCpuOf w.goarch))).filter
                (fun c => decide (c.flag ≠ .media))))
      ∧ (∀ c ∈ mediaEntries, runComponent w fl root outDir c
          = copyFile w fl (filepathJoin [root, c.srcPrefix]) (filepathJoin [outDir, c.dstPrefix]))
      ∧ (fl.dryRun = false → (∀ cmd args, w.execOk cmd args = true) →
          ∀ c ∈ mediaEntries, effects (runComponent w fl root outDir c).trace
            = [.exec "mkdir" ["-p", filepathDir (filepathJoin [outDir, c.dstPrefix])],
               .exec "cp" [filepathJoin [root, c.srcPrefix], filepathJoin [outDir, c.dstPrefix]]])
      ∧ (components hostOs hostCpu).filter (fun c => decide (c.flag = .media)) = mediaEntries
      ∧ (components hostOs hostCpu).filter (fun c => decide (c.flag = .sysroot)) = sysrootEntries
      ∧ (∀ c ∈ sysrootEntries, c ∈ executed { fl with media := false } (components hostOs hostCpu)
          ↔ c ∈ executed { fl with media := true } (components hostOs hostCpu))
      ∧ (executed { fl with media := false, sysroot := true } (components hostOs hostCpu)).filter
            (fun c => decide (c.flag = .sysroot)) = sysrootEntries := by
  have hsys := components_sysroot hostOs hostCpu
  have hmedia := components_media hostOs hostCpu
  have hrem := executed_media_removed fl (components hostOs hostCpu)
  have hremW := executed_media_removed fl (components (hostOsOf w.goos) (hostCpuOf w.goarch))
  refine ⟨hrem, ?_, executed_media_false fl _, ?_, ?_, ?_, ?_, ?_, ?_, hmedia, hsys, ?_, ?_⟩
  · rw [executed_media_true, hmedia]
  · rw [runComponents_eq_runAll, runAll_media]
  · rw [runComponents_eq_runAll, runAll_media, hrem]
  · rw [main_eq_mainWith, mainWith_media]
    simp only [runComponents_eq_runAll, runAll_media]
  · rw [main_eq_mainWith, mainWith_media]
    simp only [runComponents_eq_runAll, runAll_media, hremW]
  · exact fun c hc => runComponent_mediaEntry w fl root outDir c hc
  · intro hdry hok c hc
    rw [runComponent_mediaEntry w fl root outDir c hc]
    exact (copyFile_run w fl _ _ hdry hok).1
  · intro c hc
    rw [← hsys, List.mem_filter] at hc
    rw [executed_eq_filter, executed_eq_filter, List.mem_filter, List.mem_filter]
    have hflag : c.flag = .sysroot := by simpa using hc.2
    simp [hflag, Flags.get]
  · rw [executed_sysroot, hsys]

/-- Witness for claim C1: on a Linux x64 host with root `/f` and staging
directory `/o`, every command succeeding, the body for the first media entry
copies `audio.h`; with only `--media` set the loop runs the six copies, and
with `--media` off as well it runs nothing. -/
theorem media_flag_isolation_witness :
    effects (runComponent okWorld {} "/f" "/o"
        ⟨.media, "garnet/public/lib/media/c/audio.h",
          "sysroot/x86_64-fuchsia/include/media/audio.h", .fileType, none⟩).trace
      = [.exec "mkdir" ["-p", "/o/sysroot/x86_64-fuchsia/include/media"],
         .exec "cp" ["/f/garnet/public/lib/media/c/audio.h",
           "/o/sysroot/x86_64-fuchsia/include/media/audio.h"]]
    ∧ execsOf (runComponents okWorld mediaOnlyFlags "/f" "/o" (components "linux" "x64")).trace
      = [("mkdir", ["-p", "/o/sysroot/x86_64-fuchsia/include/media"]),
         ("cp", ["/f/garnet/public/lib/media/c/audio.h",
           "/o/sysroot/x86_64-fuchsia/include/media/audio.h"]),
         ("mkdir", ["-p", "/o/sysroot/aarch64-fuchsia/include/media"]),
         ("cp", ["/f/garnet/public/lib/media/c/audio.h",
           "/o/sysroot/aarch64-fuchsia/include/media/audio.h"]),
         ("mkdir", ["-p", "/o/sysroot/x86_64-fuchsia/lib"]),
         ("cp", ["/f/out/release-x64/x64-shared/libmedia_client.so",
           "/o/sysroot/x86_64-fuchsia/lib/libmedia_client.so"]),
         ("mkdir", ["-p", "/o/sysroot/x86_64-fuchsia/debug"]),
         ("cp", ["/f/out/release-x64/x64-shared/lib.unstripped/libmedia_client.so",
           "/o/sysroot/x86_64-fuchsia/debug/libmedia_client.so"]),
         ("mkdir", ["-p", "/o/sysroot/aarch64-fuchsia/lib"]),
         ("cp", ["/f/out/release-arm64/arm64-shared/libmedia_client.so",
           "/o/sysroot/aarch64-fuchsia/lib/libmedia_client.so"]),
         ("mkdir", ["-p", "/o/sysroot/aarch64-fuchsia/debug"]),
         ("cp", ["/f/out/release-arm64/arm64-shared/lib.unstripped/libmedia_client.so",
           "/o/sysroot/aarch64-fuchsia/debug/libmedia_client.so"])]
    ∧ (runComponents okWorld { mediaOnlyFlags with media := false } "/f" "/o"
        (components "linux" "x64")).trace = [] :=
  have h := media_flag_isolation okWorld {} "/f" "/o" "linux" "x64"
  ⟨(h.2.2.2.2.2.2.2.2.1 rfl (fun _ _ => rfl) _ (by decide)).trans (by decide),
    by decide, by decide⟩

theorem copyDir_run (w : World) (fl : Flags) (src dst : String) (hdry : fl.dryRun = false)
    (hmk : w.execOk "mkdir" ["-p", filepathDir dst] = true)
    (hcp : w.execOk "cp" ["-r", src, "-T", dst] = true) :
    effects (copyDir w fl src dst).trace
        = [.exec "mkdir" ["-p", filepathDir dst], .exec "cp" ["-r", src, "-T", dst]]
      ∧ (copyDir w fl src dst).val = some () := by
  have hm := mkdir_run w fl (filepathDir dst) hdry hmk
  have hc := cp_run w fl ["-r", src, "-T", dst] hdry hcp
  have hb := bind_run (mkdir w fl (filepathDir dst)) (fun _ => cp w fl ["-r", src, "-T", dst]) ()
    hm.2
  unfold copyDir
  rw [hb.1, hb.2, effects_append, hm.1, hc.1, hc.2]
  simp

theorem executed_toolchainOnly (fl : Flags) (hostOs hostCpu : String) (h : fl.toolchainOnly) :
    executed fl (components hostOs hostCpu) = [toolchainEntry hostOs hostCpu] := by
  obtain ⟨h1, h2, h3, h4, h5, h6, h7, h8, h9⟩ := h
  rw [executed_eq_filter, components_eq, components0_eq, dirs_eq, files_eq]
  simp [List.filter, Flags.get, h1, h2, h3, h4, h5, h6, h7, h8, h9, toolchainEntry]

/-- Claim C2 (toolchain-only scenario): with every component flag false except
`toolchain`, the loop of `main` runs the body for exactly one entry, the
directory entry `buildtools/<hostOs>-<hostCpu>/clang` to `clang`, so the loop
is `copyDir` of `<root>/buildtools/<hostOs>-<hostCpu>/clang` onto
`<outDir>/clang` and nothing else; not in dry run and with the two commands
succeeding, its effects are one `mkdir -p` of the parent of `<outDir>/clang`
followed by one `cp -r src -T dst`, and the loop returns. -/
theorem toolchain_only_scenario (w : World) (fl : Flags) (root outDir hostOs hostCpu : String)
    (hflags : fl.toolchainOnly) :
    executed fl (components hostOs hostCpu)
        = [⟨.toolchain, "buildtools/" ++ hostOs ++ "-" ++ hostCpu ++ "/clang", "clang",
            .dirType, none⟩]
      ∧ runComponents w fl root outDir (components hostOs hostCpu)
        = copyDir w fl
            (filepathJoin [root, "buildtools/" ++ hostOs ++ "-" ++ hostCpu ++ "/clang"])
            (filepathJoin [outDir, "clang"])
      ∧ (fl.dryRun = false →
          w.execOk "mkdir" ["-p", filepathDir (filepathJoin [outDir, "clang"])] = true →
          w.execOk "cp" ["-r",
            filepathJoin [root, "buildtools/" ++ hostOs ++ "-" ++ hostCpu ++ "/clang"], "-T",
            filepathJoin [outDir, "clang"]] = true →
          effects (runComponents w fl root outDir (components hostOs hostCpu)).trace
            = [.exec "mkdir" ["-p", filepathDir (filepathJoin [outDir, "clang"])],
               .exec "cp" ["-r",
                 filepathJoin [root, "buildtools/" ++ hostOs ++ "-" ++ hostCpu ++ "/clang"],
                 "-T", filepathJoin [outDir, "clang"]]]
          ∧ (runComponents w fl root outDir (components hostOs hostCpu)).val = some ()) := by
  have hex := executed_toolchainOnly fl hostOs hostCpu hflags
  have hrun : runComponents w fl root outDir (components hostOs hostCpu)
      = copyDir w fl
          (filepathJoin [root, "buildtools/" ++ hostOs ++ "-" ++ hostCpu ++ "/clang"])
          (filepathJoin [outDir, "clang"]) := by
    rw [runComponents_eq_runAll, hex]
    simp only [runAll, bind_pure_unit, runComponent, toolchainEntry]
  refine ⟨hex, hrun, fun hdry hmk hcp => ?_⟩
  rw [hrun]
  exact copyDir_run w fl _ _ hdry hmk hcp

/-- Witness for claim C2: the toolchain-only flags on a Linux x64 host, root
`/f`, staging directory `/o`, every command succeeding. -/
theorem toolchain_only_scenario_witness :
    executed toolchainOnlyFlags (components "linux" "x64")
        = [⟨.toolchain, "buildtools/linux-x64/clang", "clang", .dirType, none⟩]
      ∧ effects (runComponents okWorld toolchainOnlyFlags "/f" "/o" (components "linux" "x64")).trace
        = [.exec "mkdir" ["-p", "/o"],
           .exec "cp" ["-r", "/f/buildtools/linux-x64/clang", "-T", "/o/clang"]]
      ∧ (runComponents okWorld toolchainOnlyFlags "/f" "/o" (components "linux" "x64")).val
        = some () :=
  have h := toolchain_only_scenario okWorld toolchainOnlyFlags "/f" "/o" "linux" "x64"
    (by unfold Flags.toolchainOnly; decide)
  ⟨h.1.trans (by decide), (h.2.2 rfl rfl rfl).1.trans (by decide), (h.2.2 rfl rfl rfl).2⟩

/-- Claim C10 as stated fails: in the table not every file entry stands before
every custom entry (entry 12 is a file entry, entry 0 a custom one). -/
theorem files_not_before_customs :
    ¬ allBefore .fileType .customType (components "linux" "x64") := by
  intro h
  have h12 := h ⟨12, by decide⟩ ⟨0, by decide⟩ (by decide) (by decide)
  exact absurd h12 (by decide)

/-- Claim C10, amended: the loop of `main` runs the body for the flagged entries
of the table in construction order, and in the table every custom entry stands
before every directory entry and every directory entry before every file
entry (so every custom entry before every file entry). -/
theorem components_order (hostOs hostCpu : String) :
    (∀ (w : World) (fl : Flags) (root outDir : String),
        runComponents w fl root outDir (components hostOs hostCpu)
          = runAll w fl root outDir
              ((components hostOs hostCpu).filter (fun c => fl.get c.flag)))
      ∧ allBefore .customType .dirType (components hostOs hostCpu)
      ∧ allBefore .dirType .fileType (components hostOs hostCpu)
      ∧ allBefore .customType .fileType (components hostOs hostCpu) := by
  refine ⟨fun w fl root outDir => ?_, ?_, ?_, ?_⟩
  · rw [runComponents_eq_runAll, executed_eq_filter]
  · apply allBefore_of_kinds _ _ _ (by decide)
    rw [components_kinds]; decide
  · apply allBefore_of_kinds _ _ _ (by decide)
    rw [components_kinds]; decide
  · apply allBefore_of_kinds _ _ _ (by decide)
    rw [components_kinds]; decide

theorem execsOf_effects (t : List Event) : execsOf (effects t) = execsOf t := by
  induction t with
  | nil => rfl
  | cons e es ih =>
    cases e <;> simp_all [effects, execsOf, List.filter_cons]

theorem createLayoutIter_run (w : World) (fl : Flags) (manifest root outDir : String) (idx : Nat)
    (buildDir : String) (hdry : fl.dryRun = false) :
    effects (createLayoutIter w fl manifest root outDir idx buildDir).trace
        = .exec (layoutCmd root)
            (if idx > 0 then layoutArgs root buildDir manifest outDir ++ ["--overlay"]
              else layoutArgs root buildDir manifest outDir) ::
            (if w.execOk (layoutCmd root)
                (if idx > 0 then layoutArgs root buildDir manifest outDir ++ ["--overlay"]
                  else layoutArgs root buildDir manifest outDir) then []
              else [.fatal "create_layout.py failed with output"])
      ∧ (createLayoutIter w fl manifest root outDir idx buildDir).val
        = if w.execOk (layoutCmd root)
            (if idx > 0 then layoutArgs root buildDir manifest outDir ++ ["--overlay"]
              else layoutArgs root buildDir manifest outDir) then some true else none := by
  unfold createLayoutIter
  simp only [layoutCmd, layoutArgs, hdry]
  generalize (if idx > 0 then
        ["--manifest", filepathJoin [root, buildDir, "sdk-manifests", manifest], "--output",
          outDir] ++ ["--overlay"]
      else ["--manifest", filepathJoin [root, buildDir, "sdk-manifests", manifest], "--output",
          outDir]) = args
  generalize filepathJoin [root, "scripts", "sdk", "create_layout.py"] = cmd
  cases hv : fl.verbose <;> cases hok : w.execOk cmd args <;>
    simp [runOrDie, bind_eq, pure_eq, Res.bind, emit, logFatal, hok, effects]

/-- Claim C3: not in dry run, if both invocations succeed `createLayout` runs
`<root>/scripts/sdk/create_layout.py` exactly twice and does nothing else,
first with `--manifest <root>/out/release-x64/sdk-manifests/<manifest> --output
<outDir>`, then with `--manifest <root>/out/release-arm64/sdk-manifests/<manifest>
--output <outDir> --overlay`, and returns; if the first invocation fails it is
the only command run and the process ends. -/
theorem createLayout_invocations (w : World) (fl : Flags) (manifest root outDir : String)
    (hdry : fl.dryRun = false) :
    (w.execOk (layoutCmd root) (layoutArgs root "out/release-x64" manifest outDir) = true →
      w.execOk (layoutCmd root)
        (layoutArgs root "out/release-arm64" manifest outDir ++ ["--overlay"]) = true →
      effects (createLayout w fl manifest root outDir).trace
          = [.exec (layoutCmd root) (layoutArgs root "out/release-x64" manifest outDir),
             .exec (layoutCmd root)
               (layoutArgs root "out/release-arm64" manifest outDir ++ ["--overlay"])]
        ∧ (createLayout w fl manifest root outDir).val = some ())
    ∧ (w.execOk (layoutCmd root) (layoutArgs root "out/release-x64" manifest outDir) = false →
      execsOf (createLayout w fl manifest root outDir).trace
          = [(layoutCmd root, layoutArgs root "out/release-x64" manifest outDir)]
        ∧ (createLayout w fl manifest root outDir).val = none) := by
  have h0 := createLayoutIter_run w fl manifest root outDir 0 x64BuildDir hdry
  have h1 := createLayoutIter_run w fl manifest root outDir 1 armBuildDir hdry
  simp only [gt_iff_lt, lt_self_iff_false, if_false, Nat.lt_one_iff, zero_lt_one, if_true] at h0 h1
  constructor
  · intro hok1 hok2
    have hok1' : w.execOk (layoutCmd root) (layoutArgs root x64BuildDir manifest outDir) = true :=
      hok1
    have hok2' : w.execOk (layoutCmd root)
        (layoutArgs root armBuildDir manifest outDir ++ ["--overlay"]) = true := hok2
    rw [hok1'] at h0
    rw [hok2'] at h1
    simp only [if_true] at h0 h1
    have hb0 := bind_run (createLayoutIter w fl manifest root outDir 0 x64BuildDir)
      (fun goOn => if goOn then
        createLayoutLoop w fl manifest root outDir 1 [armBuildDir] else pure ()) true h0.2
    have hb1 := bind_run (createLayoutIter w fl manifest root outDir 1 armBuildDir)
      (fun goOn => if goOn then
        createLayoutLoop w fl manifest root outDir 2 [] else pure ()) true h1.2
    unfold createLayout createLayoutLoop
    rw [hb0.1, hb0.2]
    simp only [if_true]
    unfold createLayoutLoop
    rw [hb1.1, hb1.2]
    simp only [if_true, createLayoutLoop, effects_append, h0.1, h1.1, pure_eq]
    simp [effects, x64BuildDir, armBuildDir]
  · intro hfail
    have hfail' : w.execOk (layoutCmd root) (layoutArgs root x64BuildDir manifest outDir)
        = false := hfail
    rw [hfail'] at h0
    simp only [Bool.false_eq_true, if_false] at h0
    have hval : (createLayout w fl manifest root outDir).val = none := by
      unfold createLayout createLayoutLoop
      simp [bind_eq, Res.bind, h0.2]
    have htr : (createLayout w fl manifest root outDir).trace
        = (createLayoutIter w fl manifest root outDir 0 x64BuildDir).trace := by
      unfold createLayout createLayoutLoop
      simp [bind_eq, Res.bind, h0.2]
    refine ⟨?_, hval⟩
    rw [htr, ← execsOf_effects, h0.1]
    rfl

/-- Claim C8 fails on the code: in dry run `createLayout` prints exactly one
`createLayout` line, the one for the `out/release-x64` manifest without
`--overlay`, and returns; no line is printed for `out/release-arm64`. -/
theorem createLayout_dryRun_single_line (w : World) (fl : Flags) (manifest root outDir : String) :
    (createLayout w { fl with dryRun := true } manifest root outDir).trace
        = [.println ["createLayout", layoutCmd root,
            fmtSlice (layoutArgs root "out/release-x64" manifest outDir)]]
      ∧ (createLayout w { fl with dryRun := true } manifest root outDir).val = some () := by
  unfold createLayout createLayoutLoop createLayoutIter
  simp [bind_eq, pure_eq, Res.bind, emit, layoutCmd, layoutArgs, x64BuildDir]

/-- Witness for claim C3: both branches, in a world where every command
succeeds and in one where every command fails. -/
theorem createLayout_invocations_witness :
    (effects (createLayout okWorld {} "garnet" "/f" "/o").trace
        = [.exec "/f/scripts/sdk/create_layout.py"
             ["--manifest", "/f/out/release-x64/sdk-manifests/garnet", "--output", "/o"],
           .exec "/f/scripts/sdk/create_layout.py"
             ["--manifest", "/f/out/release-arm64/sdk-manifests/garnet", "--output", "/o",
               "--overlay"]]
      ∧ (createLayout okWorld {} "garnet" "/f" "/o").val = some ())
    ∧ (execsOf (createLayout failWorld {} "garnet" "/f" "/o").trace
        = [("/f/scripts/sdk/create_layout.py",
             ["--manifest", "/f/out/release-x64/sdk-manifests/garnet", "--output", "/o"])]
      ∧ (createLayout failWorld {} "garnet" "/f" "/o").val = none) :=
  have hok := (createLayout_invocations okWorld {} "garnet" "/f" "/o" rfl).1 rfl rfl
  have hfail := (createLayout_invocations failWorld {} "garnet" "/f" "/o" rfl).2 rfl
  ⟨⟨hok.1.trans (by decide), hok.2⟩, ⟨hfail.1.trans (by decide), hfail.2⟩⟩

theorem stringsSplit_record (r : String × String) (h1 : ' ' ∉ r.1.data) (h2 : ' ' ∉ r.2.data) :
    stringsSplit (idsRecordLine r) ' ' = [r.1, r.2] := by
  unfold stringsSplit idsRecordLine
  simp only [String.data_append]
  have : r.1.data ++ " ".data ++ r.2.data = r.1.data ++ ' ' :: r.2.data := by
    show r.1.data ++ [' '] ++ r.2.data = _
    simp
  rw [this, splitOn_append_sep, splitOn_of_not_mem _ _ h1, splitOn_of_not_mem _ _ h2]
  rfl

theorem idsLine_record (dstIds base : String) (r : String × String)
    (h1 : ' ' ∉ r.1.data) (h2 : ' ' ∉ r.2.data) :
    idsLine dstIds base (idsRecordLine r) = emit (idsRecordEvent dstIds base r) := by
  unfold idsLine idsRecordEvent
  rw [stringsSplit_record r h1 h2]
  simp only
  cases filepathRel base r.2 <;> rfl

theorem idsLoop_records (dstIds base : String) (records : List (String × String))
    (h : ∀ r ∈ records, ' ' ∉ r.1.data ∧ ' ' ∉ r.2.data) :
    idsLoop dstIds base (records.map idsRecordLine)
      = ⟨records.map (idsRecordEvent dstIds base), some ()⟩ := by
  induction records with
  | nil => rfl
  | cons r rs ih =>
    have hr := h r (by simp)
    simp only [List.map_cons, idsLoop, idsLine_record dstIds base r hr.1 hr.2,
      ih (fun x hx => h x (by simp [hx]))]
    simp [bind_eq, Res.bind, emit]

theorem writesOf_records (dstIds base : String) (records : List (String × String)) :
    writesOf (records.map (idsRecordEvent dstIds base))
      = records.filterMap (fun r =>
          (filepathRel base r.2).map (fun rel => (dstIds, r.1 ++ " " ++ rel))) := by
  induction records with
  | nil => rfl
  | cons r rs ih =>
    simp only [List.map_cons, List.filterMap_cons, idsRecordEvent]
    cases filepathRel base r.2 <;> simp [writesOf, ih]

theorem warningsOf_records (dstIds base : String) (records : List (String × String)) :
    (warningsOf (records.map (idsRecordEvent dstIds base))).length
      = (records.filter (fun r => (filepathRel base r.2).isNone)).length := by
  induction records with
  | nil => rfl
  | cons r rs ih =>
    simp only [List.map_cons, List.filter_cons, idsRecordEvent]
    cases filepathRel base r.2 <;> simp [warningsOf, ih]

theorem writes_add_warnings (dstIds base : String) (records : List (String × String)) :
    (writesOf (records.map (idsRecordEvent dstIds base))).length
      + (warningsOf (records.map (idsRecordEvent dstIds base))).length = records.length := by
  induction records with
  | nil => rfl
  | cons r rs ih =>
    simp only [List.map_cons, idsRecordEvent, List.length_cons]
    cases filepathRel base r.2 <;> simp [writesOf, warningsOf] <;> omega

/-- Claim C5 (index rewrite): when `ids.txt` consists of the lines `identifier
path` of `records` (one space, none inside either field), `copyIdsTxt` not in
dry run writes to the destination `ids.txt` exactly the lines `identifier
relPath` of the records whose path `filepath.Rel` can express relative to the
base, in input order; it logs one warning for each of the `M` other records;
the number of lines written is the number of input lines minus `M`; and it
returns. -/
theorem copyIdsTxt_rewrite (w : World) (fl : Flags) (src dstPrefix : String)
    (records : List (String × String)) (hdry : fl.dryRun = false)
    (hopen : w.readLines (filepathJoin [src, "ids.txt"]) = some (records.map idsRecordLine))
    (hcreate : w.canCreate (filepathJoin [dstPrefix, "ids.txt"]) = true)
    (hform : ∀ r ∈ records, ' ' ∉ r.1.data ∧ ' ' ∉ r.2.data) :
    writesOf (copyIdsTxt w fl src dstPrefix).trace
        = records.filterMap (fun r =>
            (filepathRel (filepathJoin [w.cwd, src]) r.2).map
              (fun rel => (filepathJoin [dstPrefix, "ids.txt"], r.1 ++ " " ++ rel)))
      ∧ (warningsOf (copyIdsTxt w fl src dstPrefix).trace).length
        = (records.filter
            (fun r => (filepathRel (filepathJoin [w.cwd, src]) r.2).isNone)).length
      ∧ (writesOf (copyIdsTxt w fl src dstPrefix).trace).length
        = records.length - (records.filter
            (fun r => (filepathRel (filepathJoin [w.cwd, src]) r.2).isNone)).length
      ∧ (copyIdsTxt w fl src dstPrefix).val = some () := by
  have hloop := idsLoop_records (filepathJoin [dstPrefix, "ids.txt"]) (filepathJoin [w.cwd, src])
    records hform
  have htrace : (copyIdsTxt w fl src dstPrefix).trace
      = [.openRead (filepathJoin [src, "ids.txt"]), .create (filepathJoin [dstPrefix, "ids.txt"]),
          .getwd]
        ++ records.map (idsRecordEvent (filepathJoin [dstPrefix, "ids.txt"])
            (filepathJoin [w.cwd, src])) := by
    unfold copyIdsTxt
    simp [hopen, hdry, hcreate, hloop, bind_eq, pure_eq, Res.bind, emit]
  have hval : (copyIdsTxt w fl src dstPrefix).val = some () := by
    unfold copyIdsTxt
    simp [hopen, hdry, hcreate, hloop, bind_eq, pure_eq, Res.bind, emit]
  have hw := writesOf_records (filepathJoin [dstPrefix, "ids.txt"]) (filepathJoin [w.cwd, src])
    records
  have hl := warningsOf_records (filepathJoin [dstPrefix, "ids.txt"])
    (filepathJoin [w.cwd, src]) records
  have hsum := writes_add_warnings (filepathJoin [dstPrefix, "ids.txt"])
    (filepathJoin [w.cwd, src]) records
  have hw' : writesOf (copyIdsTxt w fl src dstPrefix).trace
      = writesOf (records.map (idsRecordEvent (filepathJoin [dstPrefix, "ids.txt"])
            (filepathJoin [w.cwd, src]))) := by
    rw [htrace]; rfl
  have hl' : warningsOf (copyIdsTxt w fl src dstPrefix).trace
      = warningsOf (records.map (idsRecordEvent (filepathJoin [dstPrefix, "ids.txt"])
            (filepathJoin [w.cwd, src]))) := by
    rw [htrace]; rfl
  refine ⟨by rw [hw', hw], by rw [hl', hl], ?_, hval⟩
  rw [hw', ← hl]
  omega

/-- Witness for claim C5: two records, one absolute path below the base and one
relative path, which `filepath.Rel` cannot relate to the absolute base. -/
theorem copyIdsTxt_rewrite_witness :
    writesOf (copyIdsTxt
        (idsWorld [idsRecordLine ("0a1b", "/w/f/out/release-x64/lib/a.so"),
          idsRecordLine ("2c3d", "lib/b.so")]) {} "f/out/release-x64" "/o/debug").trace
      = [("/o/debug/ids.txt", "0a1b lib/a.so")]
    ∧ (warningsOf (copyIdsTxt
        (idsWorld [idsRecordLine ("0a1b", "/w/f/out/release-x64/lib/a.so"),
          idsRecordLine ("2c3d", "lib/b.so")]) {} "f/out/release-x64" "/o/debug").trace).length
      = 1 := by
  have h := copyIdsTxt_rewrite
    (idsWorld [idsRecordLine ("0a1b", "/w/f/out/release-x64/lib/a.so"),
      idsRecordLine ("2c3d", "lib/b.so")]) {} "f/out/release-x64" "/o/debug"
    [("0a1b", "/w/f/out/release-x64/lib/a.so"), ("2c3d", "lib/b.so")] rfl rfl rfl (by decide)
  refine ⟨h.1.trans (by decide), h.2.1.trans (by decide)⟩

/-- A line without a space makes the loop body of `copyIdsTxt` panic. -/
theorem idsLine_without_space (dstIds base line : String) (h : ' ' ∉ line.data) :
    idsLine dstIds base line = goPanic "index out of range" := by
  unfold idsLine stringsSplit
  rw [splitOn_of_not_mem _ _ h]
  rfl

/-- Claim C6 fails on the code for an absolute project root: with root `/f` and
working directory `/w`, the `ids.txt` entry for x64 (entry 1 of the table)
writes the record for `/f/out/release-x64/lib/a.so` as
`../../../../f/out/release-x64/lib/a.so`, while that path relative to the
source build directory `/f/out/release-x64` is `lib/a.so`. -/
theorem copyIdsTxt_absolute_root_base :
    (components "linux" "x64")[1]? = some idsEntryX64
      ∧ (runComponent (idsWorld ["0a1b /f/out/release-x64/lib/a.so"]) {} "/f" "/o"
          idsEntryX64).trace
        = [.openRead "/f/out/release-x64/ids.txt",
           .create "/o/sysroot/x86_64-fuchsia/debug/ids.txt",
           .getwd,
           .writeLine "/o/sysroot/x86_64-fuchsia/debug/ids.txt"
             "0a1b ../../../../f/out/release-x64/lib/a.so"]
      ∧ filepathRel (filepathJoin ["/f", x64BuildDir]) "/f/out/release-x64/lib/a.so"
        = some "lib/a.so" := by
  decide

/-- Claim C9 fails on the code: on an `ids.txt` whose second line is empty,
`copyIdsTxt` writes the first record, then panics with an index out of range
at `s[1]`; the process ends and the third record is never written. -/
theorem copyIdsTxt_panics_on_line_without_space :
    (copyIdsTxt
        (idsWorld ["0a1b /w/f/out/release-x64/a.so", "", "2c3d /w/f/out/release-x64/b.so"])
        {} "f/out/release-x64" "/o/debug").trace
      = [.openRead "f/out/release-x64/ids.txt", .create "/o/debug/ids.txt", .getwd,
          .writeLine "/o/debug/ids.txt" "0a1b a.so", .panic "index out of range"]
    ∧ (copyIdsTxt
        (idsWorld ["0a1b /w/f/out/release-x64/a.so", "", "2c3d /w/f/out/release-x64/b.so"])
        {} "f/out/release-x64" "/o/debug").val = none := by
  decide

theorem readOnly_bind {α β : Type} (m : Res α) (f : α → Res β) (hm : m.ReadOnly)
    (hf : ∀ a, (f a).ReadOnly) : (m >>= f).ReadOnly := by
  intro e he
  rw [bind_eq] at he
  unfold Res.bind at he
  cases hv : m.val with
  | none =>
    rw [hv] at he
    exact hm e he
  | some a =>
    rw [hv] at he
    simp only [List.mem_append] at he
    rcases he with he | he
    · exact hm e he
    · exact hf a e he

theorem readOnly_bind_val {α β : Type} (m : Res α) (f : α → Res β) (hm : m.ReadOnly)
    (hf : ∀ a, m.val = some a → (f a).ReadOnly) : (m >>= f).ReadOnly := by
  intro e he
  rw [bind_eq] at he
  unfold Res.bind at he
  cases hv : m.val with
  | none =>
    rw [hv] at he
    exact hm e he
  | some a =>
    rw [hv] at he
    simp only [List.mem_append] at he
    rcases he with he | he
    · exact hm e he
    · exact hf a hv e he

theorem bind_val_some {α β : Type} (m : Res α) (f : α → Res β) (b : β)
    (h : (m >>= f).val = some b) : ∃ a, m.val = some a ∧ (f a).val = some b := by
  rw [bind_eq] at h
  unfold Res.bind at h
  cases hv : m.val with
  | none => rw [hv] at h; simp at h
  | some a => rw [hv] at h; exact ⟨a, rfl, h⟩

theorem readOnly_pure {α : Type} (a : α) : (pure a : Res α).ReadOnly := by
  intro e he
  simp [pure_eq] at he

theorem readOnly_emit (e : Event) (h : e.readOnly = true) : (emit e).ReadOnly := by
  intro x hx
  simp only [emit, List.mem_singleton] at hx
  rw [hx]; exact h

theorem readOnly_logFatal {α : Type} (msg : String) : (logFatal msg : Res α).ReadOnly := by
  intro x hx
  simp only [logFatal, List.mem_singleton] at hx
  rw [hx]; rfl

theorem readOnly_goPanic {α : Type} (msg : String) : (goPanic msg : Res α).ReadOnly := by
  intro x hx
  simp only [goPanic, List.mem_singleton] at hx
  rw [hx]; rfl

theorem mkdir_dry (w : World) (fl : Flags) (d : String) (hdry : fl.dryRun = true) :
    (mkdir w fl d).ReadOnly := by
  unfold mkdir
  simp only [hdry, Bool.or_true, if_true]
  exact readOnly_bind _ _ (readOnly_emit _ rfl) (fun _ => readOnly_pure _)

theorem cp_dry (w : World) (fl : Flags) (args : List String) (hdry : fl.dryRun = true) :
    (cp w fl args).ReadOnly := by
  unfold cp
  simp only [hdry, Bool.or_true, if_true]
  exact readOnly_bind _ _ (readOnly_emit _ rfl) (fun _ => readOnly_pure _)

theorem tar_dry (w : World) (fl : Flags) (src dst : String) (hdry : fl.dryRun = true) :
    (tar w fl src dst).ReadOnly := by
  unfold tar
  simp only [hdry, Bool.or_true, if_true]
  exact readOnly_bind _ _ (readOnly_emit _ rfl) (fun _ => readOnly_pure _)

theorem createLayout_dry (w : World) (fl : Flags) (manifest root outDir : String)
    (hdry : fl.dryRun = true) : (createLayout w fl manifest root outDir).ReadOnly := by
  unfold createLayout createLayoutLoop createLayoutIter
  simp only [hdry, Bool.or_true, if_true]
  refine readOnly_bind _ _ (readOnly_bind _ _ (readOnly_emit _ rfl) (fun _ => readOnly_pure _))
    (fun goOn => ?_)
  cases goOn
  · exact readOnly_pure _
  · simp only [if_true]
    unfold createLayoutLoop createLayoutIter
    simp only [hdry, Bool.or_true, if_true]
    refine readOnly_bind _ _ (readOnly_bind _ _ (readOnly_emit _ rfl) (fun _ => readOnly_pure _))
      (fun goOn => ?_)
    cases goOn
    · exact readOnly_pure _
    · exact readOnly_pure _

theorem debugObjVisit_dry (w : World) (fl : Flags) (src dstPrefix path : String) (isDir : Bool)
    (hdry : fl.dryRun = true) : (debugObjVisit w fl src dstPrefix path isDir).ReadOnly := by
  unfold debugObjVisit
  split
  · split
    · exact readOnly_goPanic _
    · exact readOnly_bind _ _ (mkdir_dry w fl _ hdry) (fun _ => cp_dry w fl _ hdry)
  · exact readOnly_pure _

theorem walkListing_readOnly (fn : String → Bool → Res Unit) (hfn : ∀ p d, (fn p d).ReadOnly)
    (l : Listing) : ∀ path : String, (walkListing fn path l).ReadOnly := by
  induction l with
  | nil => intro path; exact readOnly_pure _
  | file name rest ih =>
    intro path
    exact readOnly_bind _ _ (hfn _ _) (fun _ => ih path)
  | dir name children rest ihc ihr =>
    intro path
    exact readOnly_bind _ _ (hfn _ _)
      (fun _ => readOnly_bind _ _ (ihc _) (fun _ => ihr path))

theorem copyKernelDebugObjs_dry (w : World) (fl : Flags) (src dstPrefix : String)
    (hdry : fl.dryRun = true) : (copyKernelDebugObjs w fl src dstPrefix).ReadOnly := by
  unfold copyKernelDebugObjs
  refine readOnly_bind _ _ (readOnly_emit _ rfl) (fun _ => ?_)
  split
  · exact readOnly_goPanic _
  · exact debugObjVisit_dry w fl src dstPrefix src false hdry
  · exact readOnly_bind _ _ (debugObjVisit_dry w fl src dstPrefix src true hdry)
      (fun _ => walkListing_readOnly _ (fun p d => debugObjVisit_dry w fl src dstPrefix p d hdry)
        _ src)

theorem copyIdsTxt_dry (w : World) (fl : Flags) (src dstPrefix : String)
    (hdry : fl.dryRun = true) : (copyIdsTxt w fl src dstPrefix).ReadOnly := by
  unfold copyIdsTxt
  refine readOnly_bind _ _ (readOnly_emit _ rfl) (fun _ => ?_)
  split
  · exact readOnly_logFatal _
  · simp only [hdry, if_true]
    exact readOnly_pure _

theorem runComponent_dry (w : World) (fl : Flags) (root outDir : String) (c : component)
    (hdry : fl.dryRun = true) : (runComponent w fl root outDir c).ReadOnly := by
  unfold runComponent
  simp only
  split
  · exact readOnly_bind _ _ (mkdir_dry w fl _ hdry) (fun _ => cp_dry w fl _ hdry)
  · exact readOnly_bind _ _ (mkdir_dry w fl _ hdry) (fun _ => cp_dry w fl _ hdry)
  · split
    · exact copyKernelDebugObjs_dry w fl _ _ hdry
    · exact copyIdsTxt_dry w fl _ _ hdry
    · exact readOnly_goPanic _

theorem runComponents_dry (w : World) (fl : Flags) (root outDir : String) (cs : List component)
    (hdry : fl.dryRun = true) : (runComponents w fl root outDir cs).ReadOnly := by
  induction cs with
  | nil => exact readOnly_pure _
  | cons c rest ih =>
    unfold runComponents
    simp only []
    split
    · exact readOnly_bind _ _ (runComponent_dry w fl root outDir c hdry) (fun _ => ih)
    · exact readOnly_bind _ _ (readOnly_pure _) (fun _ => ih)

theorem readOnly_withDefer (deferred body : Res Unit) (hd : deferred.ReadOnly)
    (hb : body.ReadOnly) : (withDefer deferred body).ReadOnly := by
  unfold withDefer
  split
  · exact readOnly_bind _ _ hb (fun _ => hd)
  · split
    · intro e he
      simp only [List.mem_append] at he
      rcases he with he | he
      · exact hb e he
      · exact hd e he
    · exact hb

/-- With `-n` and a staging directory given by `--out-dir`, a run of `main` changes nothing in the
filesystem and starts no process: every event is output, `os.Stat`, a walk, or the opening of
`ids.txt` for reading. -/
theorem main_dryRun_readOnly_of_outDir (w : World) (fl : Flags) (root : String)
    (hdry : fl.dryRun = true) (hout : fl.outDir ≠ "") : (main w fl root).ReadOnly := by
  unfold main
  simp only [hout, if_false]
  refine readOnly_bind _ _ (readOnly_emit _ rfl) (fun _ => ?_)
  split
  · refine readOnly_bind _ _ (readOnly_emit _ rfl) (fun _ => ?_)
    refine readOnly_bind_val _ _ (readOnly_logFatal _) (fun a ha => ?_)
    simp [logFatal] at ha
  · refine readOnly_bind _ _ (readOnly_pure _) (fun _ => ?_)
    refine readOnly_bind_val _ _ ?_ (fun p hp => ?_)
    · refine readOnly_bind _ _ (readOnly_emit _ rfl) (fun _ => ?_)
      exact readOnly_bind _ _ (readOnly_pure _) (fun _ => readOnly_pure _)
    · have hp2 : p.2 = false := by
        obtain ⟨_, _, h1⟩ := bind_val_some _ _ _ hp
        obtain ⟨_, _, h2⟩ := bind_val_some _ _ _ h1
        simp only [pure_eq, Option.some.injEq] at h2
        rw [← h2]
      apply readOnly_withDefer
      · simp only [hp2, Bool.false_eq_true, if_false]
        exact readOnly_pure _
      · refine readOnly_bind _ _ (createLayout_dry w fl _ _ _ hdry) (fun _ => ?_)
        refine readOnly_bind _ _ (runComponents_dry w fl _ _ _ hdry) (fun _ => ?_)
        split
        · exact tar_dry w fl _ _ hdry
        · exact readOnly_pure _

/-- Claim C7 fails on the code for an empty `--out-dir`: a dry run with default
flags on an existing root creates the temporary staging directory and removes
it again when `main` returns. -/
theorem main_dryRun_creates_temp_dir :
    (main (idsWorld []) { dryRun := true } "/f").trace.filter
        (fun e => e.mutatesFs || e.isExec)
      = [.mkdirTemp "/tmp/fuchsia-sdk1", .removeAll "/tmp/fuchsia-sdk1"] := by
  decide

/-- The deferred `os.RemoveAll` runs while a panic unwinds: with no `--out-dir`
and a source root that cannot be walked, the run creates the temporary
directory, panics in `copyKernelDebugObjs` and removes the directory. -/
theorem main_panic_runs_deferred_removeAll :
    (main okWorld {} "/f").trace
      = [.stat "/f", .mkdirTemp "/tmp/fuchsia-sdk1",
         .exec "/f/scripts/sdk/create_layout.py"
           ["--manifest", "/f/out/release-x64/sdk-manifests/garnet", "--output",
             "/tmp/fuchsia-sdk1"],
         .exec "/f/scripts/sdk/create_layout.py"
           ["--manifest", "/f/out/release-arm64/sdk-manifests/garnet", "--output",
             "/tmp/fuchsia-sdk1", "--overlay"],
         .walk "/f/out/build-zircon/build-x64",
         .panic "nil pointer dereference",
         .removeAll "/tmp/fuchsia-sdk1"]
    ∧ (main okWorld {} "/f").val = none := by
  decide

/-- The deferred `os.RemoveAll` does not run when the process exits through
`log.Fatal`: a failing layout tool leaves the temporary directory behind. -/
theorem main_fatal_skips_deferred_removeAll :
    (main failWorld {} "/f").trace
      = [.stat "/f", .mkdirTemp "/tmp/fuchsia-sdk1",
         .exec "/f/scripts/sdk/create_layout.py"
           ["--manifest", "/f/out/release-x64/sdk-manifests/garnet", "--output",
             "/tmp/fuchsia-sdk1"],
         .fatal "create_layout.py failed with output"]
    ∧ (main failWorld {} "/f").val = none := by
  decide

theorem cleanChars_ne_nil (s : List Char) : cleanChars s ≠ [] := by
  unfold cleanChars
  split
  · simp
  · exact renderPath_ne_nil _ _ (cleanStack_stackOk _ s)

/-- The path `Join(a, b)` is not empty when `b` is not. -/
theorem filepathJoin_ne_empty (a b : String) (hb : b ≠ "") : filepathJoin [a, b] ≠ "" := by
  have hbd : b.data ≠ [] := fun e => hb (String.ext e)
  intro h
  have hdata : (filepathJoin [a, b]).data = [] := by rw [h]
  simp only [filepathJoin, pathJoin, List.map, joinChars, hbd, if_false] at hdata
  split at hdata
  · exact cleanChars_ne_nil _ hdata
  · exact cleanChars_ne_nil _ hdata

/-- The entries of the table that hold `copyKernelDebugObjs`. -/
theorem components_debugObjs (hostOs hostCpu : String) :
    (components hostOs hostCpu).filter (fun c => decide (c.f = some .copyKernelDebugObjs))
      = [⟨.kernelDebugObjs, x64ZxBuildDir, "sysroot/x86_64-fuchsia/debug", .customType,
            some .copyKernelDebugObjs⟩,
         ⟨.kernelDebugObjs, armZxBuildDir, "sysroot/aarch64-fuchsia/debug", .customType,
            some .copyKernelDebugObjs⟩] := by
  rw [components_eq, dirs_eq, files_eq]
  rfl

/-- Claim C4 (debug-object filter): for either table entry that holds
`copyKernelDebugObjs`, every project root and staging directory, and every
tree of entries in the source directory, the loop of `main` calls
`copyKernelDebugObjs` with `src = Join(root, srcPrefix)` and `dstPrefix =
Join(outDir, dstPrefix)`, and that run is the walk followed, in walk order,
for exactly the non-directories `src/rel` whose extension is `.elf`, by the
creation of the parent of `Join(dstPrefix, rel)` and then the copy of
`src/rel` to `Join(dstPrefix, rel)`; not in dry run and with the commands
succeeding, its effects besides the walk are exactly those `mkdir -p` and
`cp` commands, nothing else is copied and no other directory created.  The
same holds for that `src` with any non-empty destination prefix. -/
theorem copyKernelDebugObjs_filter (w : World) (fl : Flags)
    (root outDir hostOs hostCpu : String) (c : component) (entries : Listing)
    (hc : c ∈ components hostOs hostCpu) (hf : c.f = some .copyKernelDebugObjs)
    (hnames : entries.namesOk = true)
    (htree : w.tree (filepathJoin [root, c.srcPrefix]) = some (.dir entries)) :
    runComponent w fl root outDir c
        = copyKernelDebugObjs w fl (filepathJoin [root, c.srcPrefix])
            (filepathJoin [outDir, c.dstPrefix])
      ∧ DebugObjFilterCalls w fl (filepathJoin [root, c.srcPrefix])
          (filepathJoin [outDir, c.dstPrefix]) entries
      ∧ (fl.dryRun = false → (∀ cmd args, w.execOk cmd args = true) →
          DebugObjFilterSpec w fl (filepathJoin [root, c.srcPrefix])
            (filepathJoin [outDir, c.dstPrefix]) entries)
      ∧ (∀ dstPrefix : String, dstPrefix ≠ "" →
          DebugObjFilterCalls w fl (filepathJoin [root, c.srcPrefix]) dstPrefix entries
          ∧ (fl.dryRun = false → (∀ cmd args, w.execOk cmd args = true) →
              DebugObjFilterSpec w fl (filepathJoin [root, c.srcPrefix]) dstPrefix entries)) := by
  have hmem : c ∈ (components hostOs hostCpu).filter
      (fun c => decide (c.f = some .copyKernelDebugObjs)) := by
    rw [List.mem_filter]
    exact ⟨hc, by simpa using hf⟩
  rw [components_debugObjs] at hmem
  simp only [List.mem_cons, List.mem_singleton, List.not_mem_nil, or_false] at hmem
  have hsrc : c.srcPrefix = x64ZxBuildDir ∨ c.srcPrefix = armZxBuildDir := by
    rcases hmem with rfl | rfl
    · exact Or.inl rfl
    · exact Or.inr rfl
  have hdstne : c.dstPrefix ≠ "" := by
    rcases hmem with rfl | rfl <;> decide
  have hrun : runComponent w fl root outDir c
      = copyKernelDebugObjs w fl (filepathJoin [root, c.srcPrefix])
          (filepathJoin [outDir, c.dstPrefix]) := by
    rcases hmem with rfl | rfl <;> rfl
  have hgen := fun (dstPrefix : String) (hd : dstPrefix ≠ "") =>
    copyKernelDebugObjs_nonempty_prefix w fl root c.srcPrefix dstPrefix entries hsrc hd hnames htree
  have hmain := hgen (filepathJoin [outDir, c.dstPrefix])
    (filepathJoin_ne_empty outDir c.dstPrefix hdstne)
  exact ⟨hrun, hmain.1, hmain.2, hgen⟩

/-- Witness for claim C4: the x64 debug-object entry on the sample tree, root
`/f`, staging directory `/o`, every command succeeding; `notes.txt` and the
directory `sub.elf` are not copied. -/
theorem copyKernelDebugObjs_filter_witness :
    effects (runComponent (treeWorld sampleTree) {} "/f" "/o"
        ⟨.kernelDebugObjs, x64ZxBuildDir, "sysroot/x86_64-fuchsia/debug", .customType,
          some .copyKernelDebugObjs⟩).trace
      = [.walk "/f/out/build-zircon/build-x64",
         .exec "mkdir" ["-p", "/o/sysroot/x86_64-fuchsia/debug"],
         .exec "cp" ["/f/out/build-zircon/build-x64/a.elf",
           "/o/sysroot/x86_64-fuchsia/debug/a.elf"],
         .exec "mkdir" ["-p", "/o/sysroot/x86_64-fuchsia/debug/sub.elf"],
         .exec "cp" ["/f/out/build-zircon/build-x64/sub.elf/b.elf",
           "/o/sysroot/x86_64-fuchsia/debug/sub.elf/b.elf"]] :=
  have h := copyKernelDebugObjs_filter (treeWorld sampleTree) {} "/f" "/o" "linux" "x64"
    ⟨.kernelDebugObjs, x64ZxBuildDir, "sysroot/x86_64-fuchsia/debug", .customType,
      some .copyKernelDebugObjs⟩ sampleTree (by decide) rfl (by decide) rfl
  (congrArg (fun m => effects m.trace) h.1).trans
    ((h.2.2.1 rfl (fun _ _ => rfl)).1.trans (by decide))

end MakeSdk
